import Mathlib

/-!
Shallow embedding of the community-backend feed core (src/feed/models.py,
src/feed/serializers.py): entity records, the like/karma write path, the
leaderboard aggregation, and the comment-tree assembly, together with proofs
about them.
-/

namespace Feed

abbrev UserId := Nat
abbrev PostId := Nat
abbrev CommentId := Nat
abbrev LikeId := Nat

/-- Timestamps, in seconds (DateTimeField values). -/
abbrev Time := Int

/-- A row of django.contrib.auth.models.User (the fields the feed uses). -/
structure UserRec where
  id : UserId
  username : String
deriving DecidableEq, Repr

/-- A Post row (models.py, class Post). -/
structure PostRec where
  id : PostId
  authorId : UserId
  content : String
  createdAt : Time
deriving DecidableEq, Repr

/-- A Comment row (models.py, class Comment): `parent` is a nullable
self-referential foreign key. -/
structure CommentRec where
  id : CommentId
  postId : PostId
  parentId : Option CommentId
  authorId : UserId
  content : String
  createdAt : Time
deriving DecidableEq, Repr

/-- A Like row (models.py, class Like): two nullable foreign keys `post` and
`comment`; `pk` is none for an unsaved instance. -/
structure LikeRow where
  pk : Option LikeId
  userId : UserId
  postId : Option PostId
  commentId : Option CommentId
  createdAt : Time
deriving DecidableEq, Repr

/-- A KarmaTransaction row (models.py): recipient, amount, one-to-one link to
the originating Like. -/
structure KarmaTx where
  id : Nat
  userId : UserId
  amount : Int
  likeId : LikeId
  createdAt : Time
deriving DecidableEq, Repr

/-- The database state: one table per model plus a fresh-id source standing
for the autoincrement primary-key sequence. -/
structure DB where
  users : List UserRec
  posts : List PostRec
  comments : List CommentRec
  likes : List LikeRow
  txs : List KarmaTx
  nextId : Nat
deriving DecidableEq, Repr

/-- The error outcomes the feed code can surface: `integrityError` is a
database constraint violation (django.db.IntegrityError), `alreadyLiked` the
serializer's ValidationError with message "You have already liked this item.",
`validationError` any other serializer validation failure, `doesNotExist` a
missing related row, `storeUnavailable` a database failure while executing a
statement, `assertionError` the QuerySet negative-slicing assertion. -/
inductive Err where
  | integrityError
  | alreadyLiked
  | validationError
  | doesNotExist
  | storeUnavailable
  | assertionError
deriving DecidableEq, Repr

/-- Result of a write path: the database state after the call together with
the error surfaced, if any.  Because models.py wraps nothing in
transaction.atomic(), writes that happened before a failure stay in `db`. -/
structure SaveOutcome where
  db : DB
  err : Option Err
deriving DecidableEq, Repr

def findPost (db : DB) (pid : PostId) : Option PostRec :=
  db.posts.find? (fun p => p.id == pid)

def findComment (db : DB) (cid : CommentId) : Option CommentRec :=
  db.comments.find? (fun c => c.id == cid)

/-- The two conditional UniqueConstraints of Like.Meta (models.py lines
60-70): unique (user, post) where post is non-null, unique (user, comment)
where comment is non-null.  True when inserting `lk` would violate one. -/
def likeUniqueViolation (db : DB) (lk : LikeRow) : Bool :=
  db.likes.any (fun e =>
    (lk.postId.isSome && e.userId == lk.userId && e.postId == lk.postId) ||
    (lk.commentId.isSome && e.userId == lk.userId && e.commentId == lk.commentId))

/-- The same conditional UniqueConstraints checked on an UPDATE of the row
with primary key `k`: the written row must not collide with any other row
(a row never conflicts with itself). -/
def likeUniqueViolationExcl (db : DB) (k : LikeId) (lk : LikeRow) : Bool :=
  db.likes.any (fun e =>
    !(e.pk == some k) &&
    ((lk.postId.isSome && e.userId == lk.userId && e.postId == lk.postId) ||
     (lk.commentId.isSome && e.userId == lk.userId && e.commentId == lk.commentId)))

/-- The two CheckConstraints of Like.Meta (models.py lines 71-78):
`like_has_target` and `like_single_target`.  True when `lk` violates one. -/
def likeCheckViolation (lk : LikeRow) : Bool :=
  (lk.postId.isNone && lk.commentId.isNone) ||
  (lk.postId.isSome && lk.commentId.isSome)

/-- KarmaTransaction.objects.create (models.py lines 110-114): inserts the
karma row.  `fails` injects a database failure of this single INSERT
statement (the store becoming unavailable between the two writes of
Like.save); the OneToOneField `like` makes a duplicate like_id an
IntegrityError. -/
def insertKarmaTx (db : DB) (recipient : UserId) (amount : Int) (lid : LikeId)
    (now : Time) (fails : Bool) : SaveOutcome :=
  if fails then { db := db, err := some Err.storeUnavailable }
  else if db.txs.any (fun t => t.likeId == lid) then
    { db := db, err := some Err.integrityError }
  else
    { db := { db with
                txs := db.txs ++ [⟨db.nextId, recipient, amount, lid, now⟩],
                nextId := db.nextId + 1 },
      err := none }

/-- The karma-emission block of Like.save (models.py lines 98-114), run only
when `is_new` held: 5 karma to the post's author for a post like, 1 karma to
the comment's author for a comment like, nothing when both targets are null. -/
def emitKarma (db : DB) (saved : LikeRow) (now : Time) (karmaFails : Bool) :
    SaveOutcome :=
  match saved.pk with
  | none => { db := db, err := none }
  | some lid =>
    match saved.postId with
    | some p =>
      match findPost db p with
      | none => { db := db, err := some Err.doesNotExist }
      | some post => insertKarmaTx db post.authorId 5 lid now karmaFails
    | none =>
      match saved.commentId with
      | some cid =>
        match findComment db cid with
        | none => { db := db, err := some Err.doesNotExist }
        | some c => insertKarmaTx db c.authorId 1 lid now karmaFails
      | none => { db := db, err := none }

/-- Like.save (models.py lines 90-114).  `is_new` is whether `pk` was unset;
`super().save()` INSERTs a fresh row when the pk is unset, otherwise UPDATEs
the matching row (inserting it with that pk if absent, Django's
update-or-insert behaviour).  The database enforces the Meta constraints on
every write: an INSERT is checked against all stored rows, an UPDATE against
every row other than the one being written, and a violation surfaces as an
IntegrityError leaving the store unchanged.  The karma block runs only when
`is_new`.  There is no transaction.atomic() around the pair of writes, so a
failure of the karma INSERT leaves the already-inserted Like row in place. -/
def likeSave (db : DB) (lk : LikeRow) (now : Time) (karmaFails : Bool) :
    SaveOutcome :=
  match lk.pk with
  | none =>
    if likeCheckViolation lk || likeUniqueViolation db lk then
      { db := db, err := some Err.integrityError }
    else
      let saved : LikeRow := { lk with pk := some db.nextId, createdAt := now }
      let db1 : DB := { db with likes := db.likes ++ [saved], nextId := db.nextId + 1 }
      emitKarma db1 saved now karmaFails
  | some k =>
    if db.likes.any (fun e => e.pk == some k) then
      if likeCheckViolation lk || likeUniqueViolationExcl db k lk then
        { db := db, err := some Err.integrityError }
      else
        { db := { db with likes := db.likes.map (fun e => if e.pk == some k then lk else e) },
          err := none }
    else
      if likeCheckViolation lk || likeUniqueViolation db lk then
        { db := db, err := some Err.integrityError }
      else
        { db := { db with likes := db.likes ++ [{ lk with createdAt := now }] },
          err := none }

/-- Python's `name.strip()`: drop leading and trailing whitespace. -/
def pyStrip (s : String) : String :=
  ⟨((s.data.dropWhile Char.isWhitespace).reverse.dropWhile Char.isWhitespace).reverse⟩

/-- Python's `name.lower()`: lowercase every character. -/
def pyLower (s : String) : String := ⟨s.data.map Char.toLower⟩

/-- Python's `name.strip().lower()` as used by the three serializer create
methods (serializers.py lines 77, 152, 234). -/
def pyStripLower (s : String) : String := pyLower (pyStrip s)

/-- User.objects.get_or_create(username=...) (serializers.py): return the
first user with that username, creating one when absent. -/
def getOrCreateUser (db : DB) (username : String) : UserRec × DB :=
  match db.users.find? (fun u => u.username == username) with
  | some u => (u, db)
  | none =>
    let u : UserRec := ⟨db.nextId, username⟩
    (u, { db with users := db.users ++ [u], nextId := db.nextId + 1 })

/-- The writable fields of LikeSerializer: user_name plus the two optional
targets. -/
structure LikeInput where
  userName : String
  postId : Option PostId
  commentId : Option CommentId
deriving DecidableEq, Repr

/-- LikeSerializer.validate (serializers.py lines 216-230): must target
exactly one of post or comment. -/
def likeValidate (inp : LikeInput) : Option Err :=
  if inp.postId.isNone && inp.commentId.isNone then some Err.validationError
  else if inp.postId.isSome && inp.commentId.isSome then some Err.validationError
  else none

/-- The `except IntegrityError` handler of LikeSerializer.create
(serializers.py lines 245-248): an IntegrityError becomes the "You have
already liked this item." ValidationError; every other outcome passes
through. -/
def catchIntegrityError (out : SaveOutcome) : SaveOutcome :=
  match out.err with
  | some Err.integrityError => { db := out.db, err := some Err.alreadyLiked }
  | _ => out

/-- LikeSerializer.create after validate (serializers.py lines 232-248):
normalize user_name, get_or_create the user, save the Like (which emits the
KarmaTransaction), and turn an IntegrityError into the "already liked"
ValidationError. -/
def likeCreate (db : DB) (inp : LikeInput) (now : Time) (karmaFails : Bool) :
    SaveOutcome :=
  match likeValidate inp with
  | some e => { db := db, err := some e }
  | none =>
    let pair := getOrCreateUser db (pyStripLower inp.userName)
    catchIntegrityError (likeSave pair.2
      { pk := none, userId := pair.1.id, postId := inp.postId,
        commentId := inp.commentId, createdAt := now } now karmaFails)

/-- PostSerializer.create (serializers.py lines 150-159): normalize the
author name, get_or_create the author, insert the post. -/
def postCreate (db : DB) (authorName content : String) (now : Time) :
    PostRec × DB :=
  let pair := getOrCreateUser db (pyStripLower authorName)
  let p : PostRec := ⟨pair.2.nextId, pair.1.id, content, now⟩
  (p, { pair.2 with posts := pair.2.posts ++ [p], nextId := pair.2.nextId + 1 })

/-- CommentSerializer.create (serializers.py lines 72-84): normalize the
author name, get_or_create the author, insert the comment. -/
def commentCreate (db : DB) (postId : PostId) (parentId : Option CommentId)
    (authorName content : String) (now : Time) : CommentRec × DB :=
  let pair := getOrCreateUser db (pyStripLower authorName)
  let c : CommentRec := ⟨pair.2.nextId, postId, parentId, pair.1.id, content, now⟩
  (c, { pair.2 with comments := pair.2.comments ++ [c], nextId := pair.2.nextId + 1 })

/-- A like target at the application boundary: a post or a comment. -/
inductive LikeTarget where
  | post : PostId → LikeTarget
  | comment : CommentId → LikeTarget
deriving DecidableEq, Repr

/-- Whether a stored Like row is user `u`'s like of target `t`. -/
def likeMatches (e : LikeRow) (u : UserId) : LikeTarget → Bool
  | LikeTarget.post p => e.userId == u && e.postId == some p
  | LikeTarget.comment c => e.userId == u && e.commentId == some c

/-- At most one Like row per (user, target) pair. -/
def AtMostOneLike (likes : List LikeRow) : Prop :=
  ∀ u t, (likes.filter (fun e => likeMatches e u t)).length ≤ 1

/-- At most one KarmaTransaction per originating Like (the OneToOneField). -/
def AtMostOneTxPerLike (txs : List KarmaTx) : Prop :=
  ∀ lid : LikeId, (txs.filter (fun tx => tx.likeId == lid)).length ≤ 1

/-- Whether a stored KarmaTransaction originates from user `u`'s like of
target `t`, i.e. its like_id is the pk of such a Like row. -/
def txMatches (likes : List LikeRow) (u : UserId) (t : LikeTarget)
    (tx : KarmaTx) : Bool :=
  likes.any (fun e => e.pk == some tx.likeId && likeMatches e u t)

/-- At most one KarmaTransaction per (user, target) pair. -/
def AtMostOneTxPerTarget (likes : List LikeRow) (txs : List KarmaTx) : Prop :=
  ∀ u t, (txs.filter (fun tx => txMatches likes u t tx)).length ≤ 1

/-- The storage-level uniqueness invariant the Like constraints maintain. -/
structure DBInv (likes : List LikeRow) (txs : List KarmaTx) : Prop where
  likeOnce : AtMostOneLike likes
  txOnce : AtMostOneTxPerLike txs

/-! Karma ledger and leaderboard (models.py, KarmaTransaction.get_leaderboard). -/

/-- `timezone.now() - timedelta(hours=hours)` (models.py line 149). -/
def lbCutoff (now : Time) (hours : Int) : Time := now - hours * 3600

/-- The filter `karma_transactions__created_at__gte=cutoff_time`
(models.py line 153). -/
def qualifies (now : Time) (hours : Int) (tx : KarmaTx) : Bool :=
  decide (lbCutoff now hours ≤ tx.createdAt)

/-- `Sum('karma_transactions__amount')` restricted by the shared join with the
created_at filter: the summed karma of user `u` inside the window. -/
def userKarma (txs : List KarmaTx) (now : Time) (hours : Int) (u : UserId) : Int :=
  ((txs.filter (fun tx => qualifies now hours tx && tx.userId == u)).map
    (fun tx => tx.amount)).sum

/-- The aggregation of get_leaderboard before ordering and slicing
(models.py lines 152-155): users having at least one qualifying transaction,
each annotated with their summed karma inside the window, in table order. -/
def leaderboardEntries (db : DB) (now : Time) (hours : Int) : List (UserId × Int) :=
  (db.users.filter (fun u =>
      db.txs.any (fun tx => tx.userId == u.id && qualifies now hours tx))).map
    (fun u => (u.id, userKarma db.txs now hours u.id))

/-- One insertion step of a descending sort on the annotated karma. -/
def insertDesc (x : UserId × Int) : List (UserId × Int) → List (UserId × Int)
  | [] => [x]
  | y :: ys => if y.2 < x.2 then x :: y :: ys else y :: insertDesc x ys

/-- A sort realising `order_by('-karma_24h')` (models.py line 156).  SQL fixes
only the relative order of rows with distinct keys; this sort is the canonical
execution, and `LeaderboardOutcome` below captures every allowed one. -/
def sortDesc (l : List (UserId × Int)) : List (UserId × Int) := l.foldr insertDesc []

/-- KarmaTransaction.get_leaderboard (models.py lines 138-158): aggregate,
order by `-karma_24h`, slice `[:limit]`.  A negative slice bound raises
Django's "Negative indexing is not supported" AssertionError. -/
def get_leaderboard (db : DB) (now : Time) (hours : Int) (limit : Int) :
    Except Err (List (UserId × Int)) :=
  if limit < 0 then Except.error Err.assertionError
  else Except.ok ((sortDesc (leaderboardEntries db now hours)).take limit.toNat)

/-- The rows are in weakly descending karma order. -/
def SortedDescKarma (l : List (UserId × Int)) : Prop :=
  l.Pairwise (fun a b => b.2 ≤ a.2)

/-- Every result the database may return for get_leaderboard: `ORDER BY` with
ties leaves the relative order of equal-karma users unspecified, so any sorted
permutation of the aggregated entries, truncated to `limit`, is a valid
answer; a negative `limit` raises. -/
def LeaderboardOutcome (db : DB) (now : Time) (hours : Int) (limit : Int)
    (r : Except Err (List (UserId × Int))) : Prop :=
  if limit < 0 then r = Except.error Err.assertionError
  else ∃ l, List.Perm l (leaderboardEntries db now hours) ∧ SortedDescKarma l ∧
    r = Except.ok (l.take limit.toNat)

/-! Comment tree assembly (serializers.py: PostSerializer.get_comments and
RecursiveCommentSerializer, with the reply ordering of Comment.Meta). -/

/-- One insertion step of the `created_at` ascending sort. -/
def insertByCreated (c : CommentRec) : List CommentRec → List CommentRec
  | [] => [c]
  | d :: ds => if c.createdAt ≤ d.createdAt then c :: d :: ds else d :: insertByCreated c ds

/-- The default queryset ordering `ordering = ['created_at']` of Comment.Meta
(models.py line 38), applied to top-level comments and to every replies list. -/
def sortByCreated (l : List CommentRec) : List CommentRec := l.foldr insertByCreated []

/-- The replies of comment `cid` drawn from the flat fetched set: the related
manager `comment.replies`, ordered by Comment.Meta. -/
def childrenOf (flat : List CommentRec) (cid : CommentId) : List CommentRec :=
  sortByCreated (flat.filter (fun d => d.parentId == some cid))

/-- A serialized comment node: the comment plus its ordered replies
(CommentSerializer with the recursive `replies` field). -/
inductive CommentNode where
  | node : CommentRec → List CommentNode → CommentNode

/-- The recursive serialization of one comment (RecursiveCommentSerializer /
CommentSerializer.replies): the node and, below it, the serialization of each
reply.  The recursion of the Python code has no explicit bound; `fuel` caps
the depth and `buildTree` passes a fuel large enough to never truncate. -/
def buildNode (flat : List CommentRec) : Nat → CommentRec → CommentNode
  | 0, c => CommentNode.node c []
  | fuel + 1, c =>
    CommentNode.node c ((childrenOf flat c.id).map (buildNode flat fuel))

/-- PostSerializer.get_comments (serializers.py lines 121-148): keep only the
comments with `parent_id is None` as top level, in queryset order, and
serialize each recursively. -/
def buildTree (flat : List CommentRec) : List CommentNode :=
  (sortByCreated (flat.filter (fun c => c.parentId.isNone))).map
    (buildNode flat flat.length)

/-- The comment record stored at a node. -/
def nodeRec : CommentNode → CommentRec
  | CommentNode.node c _ => c

mutual

/-- All comment records appearing in a serialized tree. -/
def flattenNode : CommentNode → List CommentRec
  | CommentNode.node c rs => c :: flattenForestAux rs

/-- All comment records appearing in a list of serialized trees. -/
def flattenForestAux : List CommentNode → List CommentRec
  | [] => []
  | t :: ts => flattenNode t ++ flattenForestAux ts

end

/-- All comment records appearing in a serialized forest. -/
def flattenForest (f : List CommentNode) : List CommentRec := flattenForestAux f

mutual

/-- Every (owner id, reply record) pair of every replies list in a tree. -/
def childEntries : CommentNode → List (CommentId × CommentRec)
  | CommentNode.node c rs => rs.map (fun t => (c.id, nodeRec t)) ++ childEntriesAll rs

/-- Every (owner id, reply record) pair of every replies list in a forest. -/
def childEntriesAll : List CommentNode → List (CommentId × CommentRec)
  | [] => []
  | t :: ts => childEntries t ++ childEntriesAll ts

end

mutual

/-- Every replies list inside the tree is ordered by created_at ascending. -/
def RepliesSorted : CommentNode → Prop
  | CommentNode.node _ rs =>
    ((rs.map nodeRec).Pairwise (fun a b => a.createdAt ≤ b.createdAt)) ∧
      RepliesSortedAll rs

/-- Every replies list inside the forest is ordered by created_at ascending. -/
def RepliesSortedAll : List CommentNode → Prop
  | [] => True
  | t :: ts => RepliesSorted t ∧ RepliesSortedAll ts

end

/-- A flat comment set in which every non-null parent reference points to a
comment at a strictly earlier position of the list.  A complete per-post
comment set listed in creation order has this shape, since a reply's parent
exists before the reply. -/
def parentsPrecede (flat : List CommentRec) : Bool :=
  flat.all (fun e =>
    match e.parentId with
    | none => true
    | some pid =>
      flat.any (fun d => d.id == pid && decide (List.indexOf d flat < List.indexOf e flat)))

/-- The propositional form of `parentsPrecede`. -/
def ParentsPrecedeP (flat : List CommentRec) : Prop :=
  ∀ e ∈ flat, ∀ pid, e.parentId = some pid →
    ∃ d ∈ flat, d.id = pid ∧ List.indexOf d flat < List.indexOf e flat

/-! Concrete databases and inputs used by the evidence theorems below. -/

/-- Concrete database for the Like.save code-bug scenario: alice authored
post 10, bob is about to like it. -/
def c1db : DB :=
  { users := [⟨0, "alice"⟩, ⟨1, "bob"⟩],
    posts := [⟨10, 0, "hello", 0⟩],
    comments := [], likes := [], txs := [], nextId := 11 }

def c1inp : LikeInput := ⟨"bob", some 10, none⟩

/-- Concrete database for the comment-like scenario: carol authored comment
20 on alice's post 10. -/
def c3db : DB :=
  { users := [⟨0, "alice"⟩, ⟨1, "bob"⟩, ⟨2, "carol"⟩],
    posts := [⟨10, 0, "hello", 0⟩],
    comments := [⟨20, 10, none, 2, "hi", 0⟩],
    likes := [], txs := [], nextId := 21 }

/-- Concrete database in which bob's like of post 10 and its karma
transaction are already stored. -/
def c2db : DB :=
  { users := [⟨0, "alice"⟩, ⟨1, "bob"⟩],
    posts := [⟨10, 0, "hello", 0⟩],
    comments := [],
    likes := [⟨some 11, 1, some 10, none, 1⟩],
    txs := [⟨12, 0, 5, 11, 1⟩], nextId := 13 }

/-- Database with two users whose windowed karma ties at 5. -/
def c7db : DB :=
  { users := [⟨0, "alice"⟩, ⟨1, "bob"⟩], posts := [], comments := [],
    likes := [], txs := [⟨100, 0, 5, 50, 0⟩, ⟨101, 1, 5, 51, 0⟩], nextId := 200 }

/-- Database with distinct windowed karma: alice 5, bob 3. -/
def c7wdb : DB :=
  { users := [⟨0, "alice"⟩, ⟨1, "bob"⟩], posts := [], comments := [],
    likes := [], txs := [⟨100, 0, 5, 50, 0⟩, ⟨101, 1, 3, 51, 0⟩], nextId := 200 }

/-- Database with one karma transaction created exactly at time 0. -/
def c8db : DB :=
  { users := [⟨0, "alice"⟩], posts := [], comments := [],
    likes := [], txs := [⟨100, 0, 5, 50, 0⟩], nextId := 200 }

/-- Database for the window-boundary scenario: now = 100000, cutoff = 13600;
alice has transactions at 100000 (inside), 13600 (exactly at the cutoff) and
13599 (strictly older); bob has one at 99999. -/
def c4db : DB :=
  { users := [⟨0, "alice"⟩, ⟨1, "bob"⟩], posts := [], comments := [], likes := [],
    txs := [⟨100, 0, 5, 50, 100000⟩, ⟨101, 0, 3, 51, 13600⟩,
            ⟨102, 0, 7, 52, 13599⟩, ⟨103, 1, 1, 53, 99999⟩],
    nextId := 200 }

/-- A single comment whose declared parent (id 99) is not in the set. -/
def c6flat : List CommentRec := [⟨1, 100, some 99, 7, "orphan", 0⟩]

/-- A flat comment set of one post: two roots, two replies to the first root
(the later-created reply listed first). -/
def c5flat : List CommentRec :=
  [⟨1, 100, none, 7, "root a", 0⟩,
   ⟨2, 100, none, 8, "root b", 1⟩,
   ⟨4, 100, some 1, 9, "reply late", 9⟩,
   ⟨3, 100, some 1, 8, "reply early", 2⟩]

/-- A flat set with one root and one reply whose declared parent (id 42) is
not in the set. -/
def c6wflat : List CommentRec :=
  [⟨5, 100, none, 7, "root", 0⟩, ⟨6, 100, some 42, 8, "orphan reply", 1⟩]

/-! General list lemmas. -/

theorem filter_length_mono {α : Type} (l : List α) (p q : α → Bool)
    (h : ∀ a ∈ l, p a = true → q a = true) :
    (l.filter p).length ≤ (l.filter q).length := by
  induction l with
  | nil => simp
  | cons x xs ih =>
    have hx := h x (by simp)
    have ih2 := ih (fun a ha hp => h a (by simp [ha]) hp)
    by_cases hp : p x = true
    · rw [List.filter_cons_of_pos hp, List.filter_cons_of_pos (hx hp)]
      simpa using ih2
    · rw [List.filter_cons_of_neg (by simpa using hp)]
      cases hq : q x
      · rw [List.filter_cons_of_neg (by simp [hq])]
        exact ih2
      · rw [List.filter_cons_of_pos hq]
        exact Nat.le_succ_of_le ih2

/-! Basic facts about the like/karma write path. -/

theorem getOrCreateUser_tables (db : DB) (n : String) :
    (getOrCreateUser db n).2.posts = db.posts ∧
    (getOrCreateUser db n).2.comments = db.comments ∧
    (getOrCreateUser db n).2.likes = db.likes ∧
    (getOrCreateUser db n).2.txs = db.txs := by
  unfold getOrCreateUser
  split <;> simp

/-- C1: claimed, "creating a Like and creating its KarmaTransaction happen
inside one atomic unit: no execution path (including a failure of the
KarmaTransaction insert after the Like insert) leaves a Like persisted
without its KarmaTransaction."  The code has no transaction.atomic() around
the two writes (despite the docstring of Like.save), so when the
KarmaTransaction INSERT fails after the Like INSERT succeeded, the Like row
stays persisted with no KarmaTransaction: evaluated here on a concrete
database where bob likes alice's post and the karma insert fails. -/
theorem c1_like_persisted_without_tx :
    (likeCreate c1db c1inp 1 true).db.likes =
      [{ pk := some 11, userId := 1, postId := some 10, commentId := none,
         createdAt := 1 }] ∧
    (likeCreate c1db c1inp 1 true).db.txs = [] ∧
    (likeCreate c1db c1inp 1 true).err = some Err.storeUnavailable :=
  ⟨by decide, by decide, by decide⟩

/-- C9: saving an already-persisted Like a second time creates no additional
KarmaTransaction: when the primary key is already set Like.save skips the
karma-emission block, so whatever the write's own outcome (update, insert of
the missing pk, or a constraint violation), the stored transactions are
unchanged. -/
theorem c9_resave_creates_no_tx (db : DB) (lk : LikeRow) (now : Time)
    (b : Bool) (k : LikeId) (h : lk.pk = some k) :
    (likeSave db lk now b).db.txs = db.txs := by
  obtain ⟨pk, u, po, co, ca⟩ := lk
  simp only at h
  subst h
  simp only [likeSave]
  split <;> split <;> simp

/-- Witness for C9 at a concrete persisted like. -/
theorem c9_resave_creates_no_tx_witness :
    (likeSave c1db ⟨some 3, 1, some 10, none, 0⟩ 5 false).db.txs = c1db.txs :=
  c9_resave_creates_no_tx c1db ⟨some 3, 1, some 10, none, 0⟩ 5 false 3 rfl

theorem catchIntegrityError_db (o : SaveOutcome) :
    (catchIntegrityError o).db = o.db := by
  unfold catchIntegrityError
  split <;> rfl

theorem catchIntegrityError_err_none (o : SaveOutcome) :
    (catchIntegrityError o).err = none ↔ o.err = none := by
  unfold catchIntegrityError
  split
  · rename_i heq
    simp [heq]
  · simp

/-- A successful fresh save of a post like appends exactly one transaction of
amount 5 to the post's author. -/
theorem likeSave_ok_post (db : DB) (lk : LikeRow) (now : Time) (b : Bool)
    (p : PostId) (post : PostRec)
    (hpk : lk.pk = none) (hp : lk.postId = some p)
    (hpost : findPost db p = some post)
    (hok : (likeSave db lk now b).err = none) :
    (likeSave db lk now b).db.txs
      = db.txs ++ [⟨db.nextId + 1, post.authorId, 5, db.nextId, now⟩] := by
  obtain ⟨pk, u, po, co, ca⟩ := lk
  simp only at hpk hp
  subst hpk
  subst hp
  simp only [likeSave] at hok ⊢
  split at hok
  · simp at hok
  · rename_i hviol
    split
    · rename_i htrue
      exact absurd (by simpa using htrue) (by simpa using hviol)
    · simp only [emitKarma] at hok ⊢
      simp only [findPost] at hpost
      simp only [findPost] at hok ⊢
      rw [hpost] at hok ⊢
      simp only [insertKarmaTx] at hok ⊢
      cases b with
      | true => simp at hok
      | false =>
        simp only [Bool.false_eq_true, if_false] at hok ⊢
        split at hok
        · simp at hok
        · rename_i hconf
          rw [if_neg (show ¬((db.txs.any fun t => t.likeId == db.nextId) = true) by
            simpa using hconf)]

/-- A successful fresh save of a comment like appends exactly one transaction
of amount 1 to the comment's author. -/
theorem likeSave_ok_comment (db : DB) (lk : LikeRow) (now : Time) (b : Bool)
    (cid : CommentId) (c : CommentRec)
    (hpk : lk.pk = none) (hpo : lk.postId = none) (hco : lk.commentId = some cid)
    (hc : findComment db cid = some c)
    (hok : (likeSave db lk now b).err = none) :
    (likeSave db lk now b).db.txs
      = db.txs ++ [⟨db.nextId + 1, c.authorId, 1, db.nextId, now⟩] := by
  obtain ⟨pk, u, po, co, ca⟩ := lk
  simp only at hpk hpo hco
  subst hpk
  subst hpo
  subst hco
  simp only [likeSave] at hok ⊢
  split at hok
  · simp at hok
  · rename_i hviol
    split
    · rename_i htrue
      exact absurd (by simpa using htrue) (by simpa using hviol)
    · simp only [emitKarma] at hok ⊢
      simp only [findComment] at hc
      simp only [findComment] at hok ⊢
      rw [hc] at hok ⊢
      simp only [insertKarmaTx] at hok ⊢
      cases b with
      | true => simp at hok
      | false =>
        simp only [Bool.false_eq_true, if_false] at hok ⊢
        split at hok
        · simp at hok
        · rename_i hconf
          rw [if_neg (show ¬((db.txs.any fun t => t.likeId == db.nextId) = true) by
            simpa using hconf)]

/-- C3: for every successfully recorded like, the karma award is exactly 5
when the target is a post and exactly 1 when the target is a comment, and the
resulting KarmaTransaction credits exactly the author of the liked post or
comment. -/
theorem c3_karma_amount_and_recipient :
    (∀ (db : DB) (inp : LikeInput) (now : Time) (b : Bool) (p : PostId)
        (post : PostRec),
      inp.postId = some p → findPost db p = some post →
      (likeCreate db inp now b).err = none →
      ∃ lid tid, (likeCreate db inp now b).db.txs
        = db.txs ++ [⟨tid, post.authorId, 5, lid, now⟩]) ∧
    (∀ (db : DB) (inp : LikeInput) (now : Time) (b : Bool) (cid : CommentId)
        (c : CommentRec),
      inp.postId = none → inp.commentId = some cid →
      findComment db cid = some c →
      (likeCreate db inp now b).err = none →
      ∃ lid tid, (likeCreate db inp now b).db.txs
        = db.txs ++ [⟨tid, c.authorId, 1, lid, now⟩]) := by
  constructor
  · intro db inp now b p post hp hpost hok
    simp only [likeCreate] at hok ⊢
    split at hok
    · simp at hok
    · rename_i hv
      rw [catchIntegrityError_db]
      rw [catchIntegrityError_err_none] at hok
      have htab := getOrCreateUser_tables db (pyStripLower inp.userName)
      have hpost2 : findPost (getOrCreateUser db (pyStripLower inp.userName)).2 p
          = some post := by
        simp only [findPost] at hpost ⊢
        rw [htab.1]
        exact hpost
      rw [likeSave_ok_post _ _ _ _ _ _ rfl (by simpa using hp) hpost2 hok]
      rw [htab.2.2.2]
      exact ⟨_, _, rfl⟩
  · intro db inp now b cid c hpo hco hc hok
    simp only [likeCreate] at hok ⊢
    split at hok
    · simp at hok
    · rename_i hv
      rw [catchIntegrityError_db]
      rw [catchIntegrityError_err_none] at hok
      have htab := getOrCreateUser_tables db (pyStripLower inp.userName)
      have hc2 : findComment (getOrCreateUser db (pyStripLower inp.userName)).2 cid
          = some c := by
        simp only [findComment] at hc ⊢
        rw [htab.2.1]
        exact hc
      rw [likeSave_ok_comment _ _ _ _ _ _ rfl (by simpa using hpo)
        (by simpa using hco) hc2 hok]
      rw [htab.2.2.2]
      exact ⟨_, _, rfl⟩

/-- Witness for C3 on a concrete database: bob likes alice's post 10 and a
comment 20 by carol, and the appended transactions carry amounts 5 and 1 to
the respective authors. -/
theorem c3_karma_amount_and_recipient_witness :
    (∃ lid tid, (likeCreate c1db c1inp 1 false).db.txs
      = c1db.txs ++ [⟨tid, 0, 5, lid, 1⟩]) ∧
    (∃ lid tid,
      (likeCreate c3db ⟨"bob", none, some 20⟩ 2 false).db.txs
        = c3db.txs ++ [⟨tid, 2, 1, lid, 2⟩]) :=
  ⟨c3_karma_amount_and_recipient.1 c1db c1inp 1 false 10 ⟨10, 0, "hello", 0⟩
      rfl rfl (by decide),
   c3_karma_amount_and_recipient.2 c3db ⟨"bob", none, some 20⟩ 2 false 20
      ⟨20, 10, none, 2, "hi", 0⟩ rfl rfl rfl (by decide)⟩

/-! Uniqueness invariants of the like/karma write path. -/

theorem length_le_one_eq {α : Type} (l : List α) (h : l.length ≤ 1)
    (a b : α) (ha : a ∈ l) (hb : b ∈ l) : a = b := by
  cases l with
  | nil => cases ha
  | cons x xs =>
    cases xs with
    | nil =>
      rw [List.mem_singleton] at ha hb
      rw [ha, hb]
    | cons y ys => simp at h

theorem atMostOneTxPerTarget_of_inv (likes : List LikeRow) (txs : List KarmaTx)
    (hinv : DBInv likes txs) : AtMostOneTxPerTarget likes txs := by
  intro u t
  by_cases hex : ∃ e ∈ likes, likeMatches e u t = true ∧ ∃ k, e.pk = some k
  · obtain ⟨e0, he0, hm0, k, hk⟩ := hex
    have key : ∀ tx ∈ txs, txMatches likes u t tx = true → (tx.likeId == k) = true := by
      intro tx htx hmt
      unfold txMatches at hmt
      rw [List.any_eq_true] at hmt
      obtain ⟨e, he, hee⟩ := hmt
      rw [Bool.and_eq_true] at hee
      have hef : e ∈ likes.filter (fun e => likeMatches e u t) :=
        List.mem_filter.mpr ⟨he, hee.2⟩
      have he0f : e0 ∈ likes.filter (fun e => likeMatches e u t) :=
        List.mem_filter.mpr ⟨he0, hm0⟩
      have heq : e = e0 := length_le_one_eq _ (hinv.likeOnce u t) _ _ hef he0f
      subst heq
      have hpk : e.pk = some tx.likeId := by simpa using hee.1
      rw [hk] at hpk
      simp [Option.some.inj hpk]
    calc (txs.filter (fun tx => txMatches likes u t tx)).length
        ≤ (txs.filter (fun tx => tx.likeId == k)).length :=
          filter_length_mono txs _ _ key
      _ ≤ 1 := hinv.txOnce k
  · have hnil : txs.filter (fun tx => txMatches likes u t tx) = [] := by
      rw [List.filter_eq_nil_iff]
      intro tx htx hmt
      unfold txMatches at hmt
      rw [List.any_eq_true] at hmt
      obtain ⟨e, he, hee⟩ := hmt
      rw [Bool.and_eq_true] at hee
      exact hex ⟨e, he, hee.2, tx.likeId, by simpa using hee.1⟩
    simp [hnil]

theorem likeOnce_snoc (db : DB) (lk : LikeRow) (n : Nat) (now : Time)
    (h1 : AtMostOneLike db.likes) (huniq : likeUniqueViolation db lk = false) :
    AtMostOneLike (db.likes ++ [{ lk with pk := some n, createdAt := now }]) := by
  intro u t
  rw [List.filter_append]
  by_cases hm : likeMatches { lk with pk := some n, createdAt := now } u t = true
  · have hnil : db.likes.filter (fun e => likeMatches e u t) = [] := by
      rw [List.filter_eq_nil_iff]
      intro e he hme
      unfold likeUniqueViolation at huniq
      rw [List.any_eq_false] at huniq
      apply huniq e he
      cases t with
      | post p =>
        unfold likeMatches at hm hme
        rw [Bool.and_eq_true] at hm hme
        have hu : lk.userId = u := by simpa using hm.1
        have hp : lk.postId = some p := by simpa using hm.2
        have heu : e.userId = u := by simpa using hme.1
        have hep : e.postId = some p := by simpa using hme.2
        simp [hp, hu, heu, hep]
      | comment cid =>
        unfold likeMatches at hm hme
        rw [Bool.and_eq_true] at hm hme
        have hu : lk.userId = u := by simpa using hm.1
        have hp : lk.commentId = some cid := by simpa using hm.2
        have heu : e.userId = u := by simpa using hme.1
        have hep : e.commentId = some cid := by simpa using hme.2
        simp [hp, hu, heu, hep]
    rw [hnil]
    simp [List.filter, hm]
  · rw [show (List.filter (fun e => likeMatches e u t)
        [{ lk with pk := some n, createdAt := now }]) = [] by simp [List.filter, hm]]
    simpa using h1 u t

theorem txOnce_snoc (txs : List KarmaTx) (tx0 : KarmaTx)
    (h1 : AtMostOneTxPerLike txs)
    (hno : (txs.any fun t => t.likeId == tx0.likeId) = false) :
    AtMostOneTxPerLike (txs ++ [tx0]) := by
  intro lid
  rw [List.filter_append]
  by_cases hm : (tx0.likeId == lid) = true
  · have hnil : txs.filter (fun t => t.likeId == lid) = [] := by
      rw [List.filter_eq_nil_iff]
      intro t ht hmt
      rw [List.any_eq_false] at hno
      apply hno t ht
      have h1' : t.likeId = lid := by simpa using hmt
      have h2' : tx0.likeId = lid := by simpa using hm
      simp [h1', h2']
    rw [hnil]
    simp [List.filter, hm]
  · rw [show (List.filter (fun t => t.likeId == lid) [tx0]) = [] by simp [List.filter, hm]]
    simpa using h1 lid

theorem emitKarma_likes (d : DB) (s : LikeRow) (now : Time) (b : Bool) :
    (emitKarma d s now b).db.likes = d.likes := by
  unfold emitKarma insertKarmaTx
  repeat' split
  all_goals rfl

theorem emitKarma_txOnce (d : DB) (s : LikeRow) (now : Time) (b : Bool)
    (h : AtMostOneTxPerLike d.txs) :
    AtMostOneTxPerLike (emitKarma d s now b).db.txs := by
  unfold emitKarma insertKarmaTx
  repeat' split
  all_goals try exact h
  all_goals rename_i hconf
  all_goals
    exact txOnce_snoc d.txs _ h (by
      rw [List.any_eq_false]
      intro t ht
      intro hbad
      exact hconf (by rw [List.any_eq_true]; exact ⟨t, ht, hbad⟩))

theorem likeSave_preserves_inv (db : DB) (lk : LikeRow) (now : Time) (b : Bool)
    (hpk : lk.pk = none) (hinv : DBInv db.likes db.txs) :
    DBInv (likeSave db lk now b).db.likes (likeSave db lk now b).db.txs := by
  obtain ⟨pk, u, po, co, ca⟩ := lk
  simp only at hpk
  subst hpk
  simp only [likeSave]
  split
  · exact hinv
  · rename_i hviol
    have huniq : likeUniqueViolation db
        { pk := none, userId := u, postId := po, commentId := co, createdAt := ca } = false := by
      rcases hviol2 : likeUniqueViolation db
        { pk := none, userId := u, postId := po, commentId := co, createdAt := ca } with _ | _
      · rfl
      · exfalso
        apply hviol
        simp [hviol2]
    constructor
    · rw [emitKarma_likes]
      exact likeOnce_snoc db _ db.nextId now hinv.likeOnce huniq
    · exact emitKarma_txOnce _ _ _ _ hinv.txOnce

theorem likeCreate_preserves_inv (db : DB) (inp : LikeInput) (now : Time) (b : Bool)
    (hinv : DBInv db.likes db.txs) :
    DBInv (likeCreate db inp now b).db.likes (likeCreate db inp now b).db.txs := by
  simp only [likeCreate]
  split
  · exact hinv
  · rw [catchIntegrityError_db]
    have htab := getOrCreateUser_tables db (pyStripLower inp.userName)
    have hinv2 : DBInv (getOrCreateUser db (pyStripLower inp.userName)).2.likes
        (getOrCreateUser db (pyStripLower inp.userName)).2.txs := by
      rw [htab.2.2.1, htab.2.2.2]
      exact hinv
    exact likeSave_preserves_inv _ _ _ _ rfl hinv2

/-- C2: for every (user, target) pair with an existing Like, a further
RecordLike for that pair fails with the distinct "already liked" validation
error and has zero side effects (the database is returned unchanged); and the
storage constraints keep at most one Like and at most one KarmaTransaction
per (user, target) across every RecordLike call. -/
theorem c2_duplicate_rejected :
    (∀ (db : DB) (inp : LikeInput) (now : Time) (b : Bool) (u : UserRec),
      likeValidate inp = none →
      db.users.find? (fun x => x.username == pyStripLower inp.userName) = some u →
      (∃ e ∈ db.likes, e.userId = u.id ∧ e.postId = inp.postId ∧
        e.commentId = inp.commentId) →
      likeCreate db inp now b = ⟨db, some Err.alreadyLiked⟩) ∧
    (∀ (db : DB) (inp : LikeInput) (now : Time) (b : Bool),
      DBInv db.likes db.txs →
      DBInv (likeCreate db inp now b).db.likes (likeCreate db inp now b).db.txs ∧
      AtMostOneTxPerTarget (likeCreate db inp now b).db.likes
        (likeCreate db inp now b).db.txs) := by
  constructor
  · intro db inp now b u hval hfind hdup
    have hg : getOrCreateUser db (pyStripLower inp.userName) = (u, db) := by
      unfold getOrCreateUser
      rw [hfind]
    obtain ⟨e, he, h1, h2, h3⟩ := hdup
    have hsome : inp.postId.isSome || inp.commentId.isSome := by
      unfold likeValidate at hval
      by_cases hp : inp.postId.isSome
      · simp [hp]
      · by_cases hc : inp.commentId.isSome
        · simp [hc]
        · exfalso
          simp [Option.isNone_iff_eq_none, Option.not_isSome_iff_eq_none] at hp hc
          simp [hp, hc] at hval
    have hviol : likeUniqueViolation db
        { pk := none, userId := u.id, postId := inp.postId,
          commentId := inp.commentId, createdAt := now } = true := by
      unfold likeUniqueViolation
      rw [List.any_eq_true]
      refine ⟨e, he, ?_⟩
      rw [Bool.or_eq_true] at hsome ⊢
      rcases hsome with hp | hc
      · left
        simp [hp, h1, h2]
      · right
        simp [hc, h1, h3]
    simp only [likeCreate, hval]
    rw [hg]
    simp only [likeSave]
    rw [if_pos (by simp [hviol])]
    rfl
  · intro db inp now b hinv
    refine ⟨likeCreate_preserves_inv db inp now b hinv, ?_⟩
    exact atMostOneTxPerTarget_of_inv _ _ (likeCreate_preserves_inv db inp now b hinv)

/-- Witness for C2: bob tries to like post 10 again on c2db; the call
surfaces "already liked" and returns the database unchanged, and the
uniqueness bounds hold on the result. -/
theorem c2_duplicate_rejected_witness :
    likeCreate c2db c1inp 2 false = ⟨c2db, some Err.alreadyLiked⟩ ∧
    (DBInv (likeCreate c2db c1inp 2 false).db.likes
      (likeCreate c2db c1inp 2 false).db.txs ∧
     AtMostOneTxPerTarget (likeCreate c2db c1inp 2 false).db.likes
      (likeCreate c2db c1inp 2 false).db.txs) :=
  ⟨c2_duplicate_rejected.1 c2db c1inp 2 false ⟨1, "bob"⟩ rfl rfl
      ⟨⟨some 11, 1, some 10, none, 1⟩, by decide, rfl, rfl, rfl⟩,
   c2_duplicate_rejected.2 c2db c1inp 2 false
      ⟨by intro u t
          have hlen : c2db.likes.length = 1 := rfl
          have hsub := List.length_filter_le (fun e => likeMatches e u t) c2db.likes
          omega,
       by intro lid
          have hsub := List.length_filter_le (fun tx => tx.likeId == lid) c2db.txs
          have hlen : c2db.txs.length = 1 := rfl
          omega⟩⟩

/-! Leaderboard engine: ordering, aggregation window, degenerate inputs. -/

theorem insertDesc_perm (x : UserId × Int) (l : List (UserId × Int)) :
    List.Perm (insertDesc x l) (x :: l) := by
  induction l with
  | nil => exact List.Perm.refl _
  | cons y ys ih =>
    unfold insertDesc
    split
    · exact List.Perm.refl _
    · exact ((ih.cons y).trans (List.Perm.swap x y ys))

theorem sortDesc_perm (l : List (UserId × Int)) : List.Perm (sortDesc l) l := by
  induction l with
  | nil => exact List.Perm.refl _
  | cons y ys ih =>
    unfold sortDesc
    exact (insertDesc_perm y (sortDesc ys)).trans (ih.cons y)

theorem insertDesc_sorted (x : UserId × Int) (l : List (UserId × Int))
    (h : SortedDescKarma l) : SortedDescKarma (insertDesc x l) := by
  induction l with
  | nil => simp [insertDesc, SortedDescKarma]
  | cons y ys ih =>
    unfold insertDesc
    unfold SortedDescKarma at h ⊢
    rw [List.pairwise_cons] at h
    split
    · rename_i hlt
      rw [List.pairwise_cons]
      constructor
      · intro z hz
        rcases List.mem_cons.mp hz with hz | hz
        · rw [hz]
          exact le_of_lt hlt
        · exact le_trans (h.1 z hz) (le_of_lt hlt)
      · rw [List.pairwise_cons]
        exact h
    · rename_i hge
      rw [List.pairwise_cons]
      constructor
      · intro z hz
        have hz2 := (insertDesc_perm x ys).mem_iff.mp hz
        rcases List.mem_cons.mp hz2 with hz2 | hz2
        · rw [hz2]
          exact le_of_not_lt hge
        · exact h.1 z hz2
      · exact ih h.2

theorem sortDesc_sorted (l : List (UserId × Int)) : SortedDescKarma (sortDesc l) := by
  induction l with
  | nil => simp [sortDesc, SortedDescKarma]
  | cons y ys ih =>
    unfold sortDesc
    exact insertDesc_sorted y (sortDesc ys) ih

/-- The canonical execution of get_leaderboard is one of the outcomes the
database may return. -/
theorem get_leaderboard_outcome (db : DB) (now : Time) (hours limit : Int) :
    LeaderboardOutcome db now hours limit (get_leaderboard db now hours limit) := by
  unfold LeaderboardOutcome get_leaderboard
  split
  · rfl
  · exact ⟨sortDesc (leaderboardEntries db now hours),
      sortDesc_perm _, sortDesc_sorted _, rfl⟩

theorem decide_le_eq_not_lt (a b : Int) : decide (b ≤ a) = !decide (a < b) := by
  by_cases h : b ≤ a
  · simp [h, not_lt.mpr h]
  · simp [h, lt_of_not_le h]

theorem qualifies_window (now : Time) (u : UserId) (tx : KarmaTx) :
    (qualifies now 24 tx && tx.userId == u)
      = (tx.userId == u && !(decide (tx.createdAt < now - 24 * 3600))) := by
  rw [Bool.and_comm]
  unfold qualifies lbCutoff
  rw [decide_le_eq_not_lt]

theorem userKarma_window (db : DB) (now : Time) (u : UserId) :
    userKarma db.txs now 24 u
      = ((db.txs.filter (fun tx =>
          tx.userId == u && !(decide (tx.createdAt < now - 24 * 3600)))).map
        (fun tx => tx.amount)).sum := by
  unfold userKarma
  rw [List.filter_congr (fun tx _ => qualifies_window now u tx)]

/-- C4: GetLeaderboard with a 24-hour window excludes every transaction whose
created_at is strictly older than now minus 24 hours and includes every other
transaction (a transaction exactly at the cutoff included), summing the
included amounts per recipient: with a limit that does not truncate, a pair
(u, s) is listed exactly when u has some non-excluded transaction and s is
the sum of u's non-excluded amounts. -/
theorem c4_window_inclusion (db : DB) (now : Time) (limit : Int) (u : UserId) (s : Int)
    (hlim : ((leaderboardEntries db now 24).length : Int) ≤ limit) :
    ∃ r, get_leaderboard db now 24 limit = Except.ok r ∧
      ((u, s) ∈ r ↔
        ((∃ usr ∈ db.users, usr.id = u) ∧
         (∃ tx ∈ db.txs, tx.userId = u ∧ ¬(tx.createdAt < now - 24 * 3600)) ∧
         s = ((db.txs.filter (fun tx =>
             tx.userId == u && !(decide (tx.createdAt < now - 24 * 3600)))).map
           (fun tx => tx.amount)).sum)) := by
  have hlim0 : ¬ limit < 0 := by
    have h0 : (0 : Int) ≤ (leaderboardEntries db now 24).length := Int.ofNat_nonneg _
    omega
  refine ⟨(sortDesc (leaderboardEntries db now 24)).take limit.toNat, ?_, ?_⟩
  · unfold get_leaderboard
    rw [if_neg hlim0]
  · have hlen : (sortDesc (leaderboardEntries db now 24)).length ≤ limit.toNat := by
      rw [(sortDesc_perm _).length_eq]
      omega
    rw [List.take_of_length_le hlen]
    rw [(sortDesc_perm (leaderboardEntries db now 24)).mem_iff]
    unfold leaderboardEntries
    rw [List.mem_map]
    constructor
    · rintro ⟨usr, husr, heq⟩
      rw [List.mem_filter] at husr
      obtain ⟨husers, hany⟩ := husr
      rw [Prod.mk.injEq] at heq
      obtain ⟨hid, hsum⟩ := heq
      rw [List.any_eq_true] at hany
      obtain ⟨tx, htx, hcond⟩ := hany
      rw [Bool.and_eq_true] at hcond
      have htu : tx.userId = u := by
        rw [← hid]
        simpa using hcond.1
      have htq : ¬(tx.createdAt < now - 24 * 3600) := by
        have hq := hcond.2
        unfold qualifies lbCutoff at hq
        rw [decide_eq_true_iff] at hq
        exact not_lt.mpr hq
      refine ⟨⟨usr, husers, hid⟩, ⟨tx, htx, htu, htq⟩, ?_⟩
      rw [← hsum, ← hid]
      exact userKarma_window db now usr.id
    · rintro ⟨⟨usr, husers, hid⟩, ⟨tx, htx, htu, htq⟩, hsum⟩
      refine ⟨usr, ?_, ?_⟩
      · rw [List.mem_filter]
        refine ⟨husers, ?_⟩
        rw [List.any_eq_true]
        refine ⟨tx, htx, ?_⟩
        rw [Bool.and_eq_true]
        constructor
        · simp [htu, hid]
        · unfold qualifies lbCutoff
          rw [decide_eq_true_iff]
          exact not_lt.mp htq
      · rw [Prod.mk.injEq]
        refine ⟨hid, ?_⟩
        rw [hsum, hid]
        exact userKarma_window db now u

/-- Witness for C4 on c4db: with now = 100000 the pair (alice, 8) is listed,
8 being the sum of her transaction at now and her transaction at exactly the
cutoff, while her strictly-older transaction is excluded. -/
theorem c4_window_inclusion_witness :
    ∃ r, get_leaderboard c4db 100000 24 5 = Except.ok r ∧
      (((0 : UserId), (8 : Int)) ∈ r ↔
        ((∃ usr ∈ c4db.users, usr.id = 0) ∧
         (∃ tx ∈ c4db.txs, tx.userId = 0 ∧ ¬(tx.createdAt < 100000 - 24 * 3600)) ∧
         (8 : Int) = ((c4db.txs.filter (fun tx =>
             tx.userId == 0 && !(decide (tx.createdAt < 100000 - 24 * 3600)))).map
           (fun tx => tx.amount)).sum)) :=
  c4_window_inclusion c4db 100000 5 0 8 (by decide)

theorem sortedDesc_strict (l : List (UserId × Int)) (hs : SortedDescKarma l)
    (hn : (l.map (fun e => e.2)).Nodup) :
    l.Pairwise (fun a b => b.2 < a.2) := by
  have hne : l.Pairwise (fun a b => a.2 ≠ b.2) := List.pairwise_map.mp hn
  have hand := hs.and hne
  exact hand.imp (fun h => lt_of_le_of_ne h.1 (Ne.symm h.2))

/-- C7 amended: every database outcome of GetLeaderboard is sorted descending
by summed karma with at most limit entries, and two outcomes over the same
stored transactions, window, limit and now coincide whenever no two listed
users have equal sums; the order among tied users is not fixed by the code
(ORDER BY has no tie-break key), which is the only source of
nondeterminism. -/
theorem c7_amended_det :
    (∀ (db : DB) (now : Time) (hours limit : Int)
        (r : Except Err (List (UserId × Int))),
      0 ≤ limit → LeaderboardOutcome db now hours limit r →
      ∃ out, r = Except.ok out ∧ SortedDescKarma out) ∧
    (∀ (db : DB) (now : Time) (hours limit : Int)
        (r1 r2 : Except Err (List (UserId × Int))),
      ((leaderboardEntries db now hours).map (fun e => e.2)).Nodup →
      LeaderboardOutcome db now hours limit r1 →
      LeaderboardOutcome db now hours limit r2 → r1 = r2) := by
  constructor
  · intro db now hours limit r hlim hr
    unfold LeaderboardOutcome at hr
    rw [if_neg (not_lt.mpr hlim)] at hr
    obtain ⟨l, hperm, hsort, hrok⟩ := hr
    exact ⟨l.take limit.toNat, hrok,
      List.Pairwise.sublist (List.take_sublist _ _) hsort⟩
  · intro db now hours limit r1 r2 hnd h1 h2
    unfold LeaderboardOutcome at h1 h2
    by_cases hlim : limit < 0
    · rw [if_pos hlim] at h1 h2
      rw [h1, h2]
    · rw [if_neg hlim] at h1 h2
      obtain ⟨l1, hp1, hs1, he1⟩ := h1
      obtain ⟨l2, hp2, hs2, he2⟩ := h2
      have hp12 : List.Perm l1 l2 := hp1.trans hp2.symm
      have hn1 : (l1.map (fun e => e.2)).Nodup :=
        ((hp1.map (fun e => e.2)).nodup_iff).mpr hnd
      have hn2 : (l2.map (fun e => e.2)).Nodup :=
        ((hp2.map (fun e => e.2)).nodup_iff).mpr hnd
      haveI : IsAntisymm (UserId × Int) (fun a b => b.2 < a.2) :=
        ⟨fun a b hab hba => absurd (lt_trans hab hba) (lt_irrefl _)⟩
      have heq : l1 = l2 :=
        List.eq_of_perm_of_sorted hp12 (sortedDesc_strict l1 hs1 hn1)
          (sortedDesc_strict l2 hs2 hn2)
      rw [he1, he2, heq]

/-- Counterexample to C7 as stated: on c7db alice and bob tie at 5 karma, and
both orders of the tied pair are valid database outcomes of the same call, so
two calls with identical stored transactions, window, limit and now need not
return the same ordered sequence. -/
theorem c7_tie_nondeterminism :
    LeaderboardOutcome c7db 0 24 5 (Except.ok [(0, 5), (1, 5)]) ∧
    LeaderboardOutcome c7db 0 24 5 (Except.ok [(1, 5), (0, 5)]) ∧
    (Except.ok [((0 : UserId), (5 : Int)), (1, 5)]
      ≠ (Except.ok [(1, 5), (0, 5)] : Except Err (List (UserId × Int)))) := by
  refine ⟨?_, ?_, ?_⟩
  · unfold LeaderboardOutcome
    rw [if_neg (by omega)]
    exact ⟨[(0, 5), (1, 5)], by decide, by
      simp [SortedDescKarma, List.pairwise_cons], rfl⟩
  · unfold LeaderboardOutcome
    rw [if_neg (by omega)]
    exact ⟨[(1, 5), (0, 5)], by decide, by
      simp [SortedDescKarma, List.pairwise_cons], rfl⟩
  · intro h
    have h2 := Except.ok.inj h
    simp at h2

/-- Witness for the amended C7 on c7wdb, where the sums 5 and 3 are distinct:
the canonical call equals the exhibited sorted outcome and is sorted. -/
theorem c7_amended_det_witness :
    get_leaderboard c7wdb 0 24 5 = Except.ok [(0, 5), (1, 3)] ∧
    (∃ out, get_leaderboard c7wdb 0 24 5 = Except.ok out ∧ SortedDescKarma out) :=
  ⟨c7_amended_det.2 c7wdb 0 24 5 (get_leaderboard c7wdb 0 24 5)
      (Except.ok [(0, 5), (1, 3)]) (by decide)
      (get_leaderboard_outcome c7wdb 0 24 5)
      ⟨[(0, 5), (1, 3)], by decide, by simp [SortedDescKarma, List.pairwise_cons], rfl⟩,
   c7_amended_det.1 c7wdb 0 24 5 (get_leaderboard c7wdb 0 24 5) (by norm_num)
      (get_leaderboard_outcome c7wdb 0 24 5)⟩

/-- Counterexample to C8 as stated: a negative limit raises Django's
negative-slicing AssertionError instead of returning an empty result, and a
window of 0 returns a non-empty result when a transaction is timestamped
exactly at now. -/
theorem c8_counterexample :
    (get_leaderboard c8db 0 24 (-1) = Except.error Err.assertionError) ∧
    (get_leaderboard c8db 0 0 5 = Except.ok [(0, 5)]) :=
  ⟨rfl, rfl⟩

/-- C8 amended: limit = 0 yields an empty result; a non-positive window
yields an empty result provided every stored transaction is dated strictly
before now; a negative limit raises an assertion error instead of returning
a result. -/
theorem c8_amended_empty :
    (∀ (db : DB) (now : Time) (hours : Int),
      get_leaderboard db now hours 0 = Except.ok []) ∧
    (∀ (db : DB) (now : Time) (hours limit : Int),
      hours ≤ 0 → 0 ≤ limit → (∀ tx ∈ db.txs, tx.createdAt < now) →
      get_leaderboard db now hours limit = Except.ok []) ∧
    (∀ (db : DB) (now : Time) (hours limit : Int),
      limit < 0 →
      get_leaderboard db now hours limit = Except.error Err.assertionError) := by
  refine ⟨?_, ?_, ?_⟩
  · intro db now hours
    unfold get_leaderboard
    rw [if_neg (by omega)]
    simp
  · intro db now hours limit hh hl hall
    unfold get_leaderboard
    rw [if_neg (not_lt.mpr hl)]
    have hent : leaderboardEntries db now hours = [] := by
      unfold leaderboardEntries
      have hfil : db.users.filter (fun u =>
          db.txs.any (fun tx => tx.userId == u.id && qualifies now hours tx)) = [] := by
        rw [List.filter_eq_nil_iff]
        intro usr husr
        rw [Bool.not_eq_true, List.any_eq_false]
        intro tx htx
        rw [Bool.and_eq_true, not_and]
        intro _
        unfold qualifies lbCutoff
        rw [Bool.not_eq_true, decide_eq_false_iff_not, not_le]
        have h1 := hall tx htx
        have h2 : hours * 3600 ≤ 0 := by nlinarith
        linarith
      rw [hfil]
      rfl
    rw [hent]
    simp [sortDesc]
  · intro db now hours limit hl
    unfold get_leaderboard
    rw [if_pos hl]

/-- Witness for the amended C8 on c8db (its transaction is dated 0, strictly
before now = 5): limit 0 and a negative window give empty results, a negative
limit raises. -/
theorem c8_amended_empty_witness :
    get_leaderboard c8db 5 24 0 = Except.ok [] ∧
    get_leaderboard c8db 5 (-2) 7 = Except.ok [] ∧
    get_leaderboard c8db 5 24 (-3) = Except.error Err.assertionError :=
  ⟨c8_amended_empty.1 c8db 5 24,
   c8_amended_empty.2.1 c8db 5 (-2) 7 (by norm_num) (by norm_num) (by decide),
   c8_amended_empty.2.2 c8db 5 24 (-3) (by norm_num)⟩

/-! Comment tree assembly: ordering, permutation and orphan handling. -/


theorem insertByCreated_perm (c : CommentRec) (l : List CommentRec) :
    List.Perm (insertByCreated c l) (c :: l) := by
  induction l with
  | nil => exact List.Perm.refl _
  | cons y ys ih =>
    unfold insertByCreated
    split
    · exact List.Perm.refl _
    · exact ((ih.cons y).trans (List.Perm.swap c y ys))

theorem sortByCreated_perm (l : List CommentRec) :
    List.Perm (sortByCreated l) l := by
  induction l with
  | nil => exact List.Perm.refl _
  | cons y ys ih =>
    unfold sortByCreated
    exact (insertByCreated_perm y (sortByCreated ys)).trans (ih.cons y)

theorem insertByCreated_sorted (c : CommentRec) (l : List CommentRec)
    (h : l.Pairwise (fun a b => a.createdAt ≤ b.createdAt)) :
    (insertByCreated c l).Pairwise (fun a b => a.createdAt ≤ b.createdAt) := by
  induction l with
  | nil => simp [insertByCreated]
  | cons y ys ih =>
    unfold insertByCreated
    rw [List.pairwise_cons] at h
    split
    · rename_i hle
      rw [List.pairwise_cons]
      constructor
      · intro z hz
        rcases List.mem_cons.mp hz with hz | hz
        · rw [hz]
          exact hle
        · exact le_trans hle (h.1 z hz)
      · rw [List.pairwise_cons]
        exact h
    · rename_i hgt
      rw [List.pairwise_cons]
      constructor
      · intro z hz
        have hz2 := (insertByCreated_perm c ys).mem_iff.mp hz
        rcases List.mem_cons.mp hz2 with hz2 | hz2
        · rw [hz2]
          exact le_of_not_le hgt
        · exact h.1 z hz2
      · exact ih h.2

theorem sortByCreated_sorted (l : List CommentRec) :
    (sortByCreated l).Pairwise (fun a b => a.createdAt ≤ b.createdAt) := by
  induction l with
  | nil => simp [sortByCreated]
  | cons y ys ih =>
    unfold sortByCreated
    exact insertByCreated_sorted y (sortByCreated ys) ih

theorem mem_sortByCreated {x : CommentRec} {l : List CommentRec} :
    x ∈ sortByCreated l ↔ x ∈ l :=
  (sortByCreated_perm l).mem_iff

theorem nodeRec_buildNode (flat : List CommentRec) (fuel : Nat) (c : CommentRec) :
    nodeRec (buildNode flat fuel c) = c := by
  cases fuel <;> rfl

theorem parentsPrecedeP_of (flat : List CommentRec)
    (h : parentsPrecede flat = true) : ParentsPrecedeP flat := by
  unfold parentsPrecede at h
  rw [List.all_eq_true] at h
  intro e he pid hpid
  have h2 := h e he
  rw [hpid] at h2
  simp only at h2
  rw [List.any_eq_true] at h2
  obtain ⟨d, hd, hcond⟩ := h2
  rw [Bool.and_eq_true] at hcond
  exact ⟨d, hd, by simpa using hcond.1, by simpa using hcond.2⟩

theorem idInj (flat : List CommentRec) (HN : (flat.map (fun c => c.id)).Nodup)
    {a b : CommentRec} (ha : a ∈ flat) (hb : b ∈ flat) (h : a.id = b.id) :
    a = b :=
  List.inj_on_of_nodup_map HN ha hb h

theorem mem_childrenOf {flat : List CommentRec} {cid : CommentId}
    {e : CommentRec} (h : e ∈ childrenOf flat cid) :
    e ∈ flat ∧ e.parentId = some cid := by
  unfold childrenOf at h
  rw [mem_sortByCreated, List.mem_filter] at h
  exact ⟨h.1, by simpa using h.2⟩

theorem child_idx_gt (flat : List CommentRec)
    (HN : (flat.map (fun c => c.id)).Nodup) (HP : ParentsPrecedeP flat)
    {d e : CommentRec} (hd : d ∈ flat) (he : e ∈ flat)
    (hpe : e.parentId = some d.id) :
    List.indexOf d flat < List.indexOf e flat := by
  obtain ⟨d2, hd2, hid2, hlt⟩ := HP e he d.id hpe
  rw [idInj flat HN hd2 hd hid2] at hlt
  exact hlt

theorem buildNode_fuel_stable (flat : List CommentRec)
    (HN : (flat.map (fun c => c.id)).Nodup) (HP : ParentsPrecedeP flat) :
    ∀ k : Nat, ∀ d ∈ flat, flat.length - List.indexOf d flat ≤ k →
      ∀ f1 f2 : Nat, k ≤ f1 → k ≤ f2 → buildNode flat f1 d = buildNode flat f2 d := by
  intro k
  induction k with
  | zero =>
    intro d hd hm f1 f2 _ _
    have : List.indexOf d flat < flat.length := List.indexOf_lt_length.mpr hd
    omega
  | succ k ih =>
    intro d hd hm f1 f2 h1 h2
    obtain ⟨a, rfl⟩ : ∃ a, f1 = a + 1 := ⟨f1 - 1, by omega⟩
    obtain ⟨b, rfl⟩ : ∃ b, f2 = b + 1 := ⟨f2 - 1, by omega⟩
    unfold buildNode
    congr 1
    apply List.map_congr_left
    intro e hme
    obtain ⟨hef, hep⟩ := mem_childrenOf hme
    have hgt := child_idx_gt flat HN HP hd hef hep
    have helen : List.indexOf e flat < flat.length := List.indexOf_lt_length.mpr hef
    exact ih e hef (by omega) a b (by omega) (by omega)



theorem count_flattenAux (x : CommentRec) (ts : List CommentNode) :
    List.count x (flattenForestAux ts)
      = (ts.map (fun t => List.count x (flattenNode t))).sum := by
  induction ts with
  | nil => rfl
  | cons t ts ih =>
    unfold flattenForestAux
    rw [List.count_append, ih]
    rfl

theorem count_as_sum (x : CommentRec) (l : List CommentRec) :
    List.count x l = (l.map (fun e => if e = x then 1 else 0)).sum := by
  induction l with
  | nil => rfl
  | cons e es ih =>
    rw [List.count_cons, ih]
    simp only [List.map_cons, List.sum_cons]
    by_cases h : e = x
    · simp [h]
      omega
    · simp [h]

theorem sum_map_add {α : Type} (l : List α) (f g : α → Nat) :
    (l.map (fun e => f e + g e)).sum = (l.map f).sum + (l.map g).sum := by
  induction l with
  | nil => rfl
  | cons e es ih =>
    simp only [List.map_cons, List.sum_cons, ih]
    omega

theorem buildNode_congr (flat1 flat2 : List CommentRec)
    (h : ∀ cid : CommentId, flat1.filter (fun d => d.parentId == some cid)
        = flat2.filter (fun d => d.parentId == some cid)) :
    ∀ (fuel : Nat) (c : CommentRec), buildNode flat1 fuel c = buildNode flat2 fuel c := by
  intro fuel
  induction fuel with
  | zero => intro c; rfl
  | succ fuel ih =>
    intro c
    unfold buildNode childrenOf
    rw [h c.id]
    congr 1
    apply List.map_congr_left
    intro e _
    exact ih e

theorem idx_last (c : CommentRec) (l : List CommentRec) (hc : c ∉ l) :
    List.indexOf c (l ++ [c]) = l.length := by
  induction l with
  | nil => simp [List.indexOf_cons]
  | cons y ys ih =>
    have hy : ¬(y == c) = true := by
      intro hbad
      exact hc (by simp [List.mem_cons]; left; exact (beq_iff_eq.mp hbad).symm)
    simp only [List.cons_append, List.indexOf_cons, hy, cond_false]
    rw [ih (fun hm => hc (List.mem_cons_of_mem y hm))]
    simp

theorem hn_restrict (l : List CommentRec) (c : CommentRec)
    (HN : ((l ++ [c]).map (fun x => x.id)).Nodup) :
    ((l.map (fun x => x.id)).Nodup ∧ c ∉ l ∧ c.id ∉ l.map (fun x => x.id)) := by
  rw [List.map_append, List.nodup_append] at HN
  refine ⟨HN.1, ?_, ?_⟩
  · intro hm
    exact HN.2.2 (List.mem_map_of_mem _ hm) (by simp)
  · intro hm
    exact HN.2.2 hm (by simp)

theorem hp_restrict (l : List CommentRec) (c : CommentRec)
    (HN : ((l ++ [c]).map (fun x => x.id)).Nodup)
    (HP : ParentsPrecedeP (l ++ [c])) : ParentsPrecedeP l := by
  obtain ⟨hnl, hcl, hcid⟩ := hn_restrict l c HN
  intro e he pid hpid
  obtain ⟨d, hd, hid, hlt⟩ := HP e (List.mem_append_left _ he) pid hpid
  rw [List.indexOf_append_of_mem he] at hlt
  have hie : List.indexOf e l < l.length := List.indexOf_lt_length.mpr he
  have hdl : d ∈ l := by
    rcases List.mem_append.mp hd with h | h
    · exact h
    · exfalso
      rw [List.mem_singleton] at h
      subst h
      rw [idx_last d l hcl] at hlt
      omega
  refine ⟨d, hdl, hid, ?_⟩
  rw [List.indexOf_append_of_mem hdl] at hlt
  exact hlt

theorem no_children_of_last (l : List CommentRec) (c : CommentRec)
    (HN : ((l ++ [c]).map (fun x => x.id)).Nodup)
    (HP : ParentsPrecedeP (l ++ [c])) :
    (l ++ [c]).filter (fun d => d.parentId == some c.id) = [] := by
  obtain ⟨hnl, hcl, hcid⟩ := hn_restrict l c HN
  rw [List.filter_eq_nil_iff]
  intro d hd hbad
  have hpd : d.parentId = some c.id := by simpa using hbad
  obtain ⟨d2, hd2, hid2, hlt⟩ := HP d hd c.id hpd
  have hd2c : d2 = c := idInj (l ++ [c]) HN hd2 (by simp) hid2
  rw [hd2c] at hlt
  rw [idx_last c l hcl] at hlt
  have hbound : List.indexOf d (l ++ [c]) < (l ++ [c]).length := List.indexOf_lt_length.mpr hd
  rw [List.length_append, List.length_singleton] at hbound
  omega

theorem count_flatten_buildTree (flat : List CommentRec) (x : CommentRec) :
    List.count x (flattenForest (buildTree flat))
      = ((flat.filter (fun c => c.parentId.isNone)).map
          (fun r => List.count x (flattenNode (buildNode flat flat.length r)))).sum := by
  unfold flattenForest buildTree
  rw [count_flattenAux, List.map_map]
  exact ((sortByCreated_perm _).map _).sum_eq



theorem attach_count (l : List CommentRec) (c : CommentRec) (pid : CommentId)
    (p : CommentRec)
    (HN : ((l ++ [c]).map (fun x => x.id)).Nodup)
    (HP : ParentsPrecedeP (l ++ [c]))
    (hc : c.parentId = some pid) (hp : p ∈ l) (hpid : p.id = pid) :
    ∀ k : Nat, ∀ d ∈ l, l.length - List.indexOf d l ≤ k →
      ∀ f : Nat, k ≤ f → ∀ x : CommentRec,
      List.count x (flattenNode (buildNode (l ++ [c]) (f + 1) d))
        = List.count x (flattenNode (buildNode l f d))
          + (if x = c then List.count p (flattenNode (buildNode l f d)) else 0) := by
  obtain ⟨hnl, hcl, hcid⟩ := hn_restrict l c HN
  have HPl := hp_restrict l c HN HP
  have hbn : ∀ (fl : List CommentRec) (fu : Nat) (cc : CommentRec),
      buildNode fl (fu + 1) cc
        = CommentNode.node cc ((childrenOf fl cc.id).map (buildNode fl fu)) :=
    fun _ _ _ => rfl
  have hfn : ∀ (cc : CommentRec) (rs : List CommentNode),
      flattenNode (CommentNode.node cc rs) = cc :: flattenForestAux rs :=
    fun _ _ => rfl
  intro k
  induction k with
  | zero =>
    intro d hd hm
    have : List.indexOf d l < l.length := List.indexOf_lt_length.mpr hd
    omega
  | succ k ih =>
    intro d hd hm f hf x
    obtain ⟨f', rfl⟩ : ∃ f', f = f' + 1 := ⟨f - 1, by omega⟩
    have hchl : ∀ e ∈ l.filter (fun e2 => e2.parentId == some d.id),
        List.count x (flattenNode (buildNode (l ++ [c]) (f' + 1) e))
          = List.count x (flattenNode (buildNode l f' e))
            + (if x = c then List.count p (flattenNode (buildNode l f' e)) else 0) := by
      intro e he
      rw [List.mem_filter] at he
      have hep : e.parentId = some d.id := by simpa using he.2
      have hgt := child_idx_gt l hnl HPl hd he.1 hep
      have hlt : List.indexOf e l < l.length := List.indexOf_lt_length.mpr he.1
      exact ih e he.1 (by omega) f' (by omega) x
    -- right-hand side expansion shared by both cases
    have hR : ∀ (y : CommentRec),
        List.count y (flattenNode (buildNode l (f' + 1) d))
          = ((l.filter (fun e2 => e2.parentId == some d.id)).map
              (fun e => List.count y (flattenNode (buildNode l f' e)))).sum
            + (if d == y then 1 else 0) := by
      intro y
      rw [hbn, hfn, List.count_cons, count_flattenAux, List.map_map]
      have hperm : List.Perm (childrenOf l d.id)
          (l.filter (fun e2 => e2.parentId == some d.id)) := by
        unfold childrenOf
        exact sortByCreated_perm _
      rw [(hperm.map _).sum_eq]
      rfl
    by_cases hdp : d.id = pid
    · -- d is the parent of c
      have hdP : d = p := idInj l hnl hd hp (by rw [hdp, hpid])
      have hdc : d ≠ c := fun h => hcl (h ▸ hd)
      have hfplus : (l ++ [c]).filter (fun e2 => e2.parentId == some d.id)
          = l.filter (fun e2 => e2.parentId == some d.id) ++ [c] := by
        rw [List.filter_append]
        congr 1
        simp [List.filter, hc, hdp]
      have hcc : childrenOf (l ++ [c]) c.id = [] := by
        unfold childrenOf
        rw [no_children_of_last l c HN HP]
        rfl
      have hbnc : flattenNode (buildNode (l ++ [c]) (f' + 1) c) = [c] := by
        rw [hbn, hcc]
        rfl
      have hL : List.count x (flattenNode (buildNode (l ++ [c]) (f' + 1 + 1) d))
          = ((l.filter (fun e2 => e2.parentId == some d.id)).map
              (fun e => List.count x (flattenNode (buildNode (l ++ [c]) (f' + 1) e)))).sum
            + List.count x [c] + (if d == x then 1 else 0) := by
        rw [hbn, hfn, List.count_cons, count_flattenAux, List.map_map]
        have hperm : List.Perm (childrenOf (l ++ [c]) d.id)
            (l.filter (fun e2 => e2.parentId == some d.id) ++ [c]) := by
          unfold childrenOf
          rw [hfplus]
          exact sortByCreated_perm _
        rw [(hperm.map _).sum_eq, List.map_append, List.sum_append]
        simp only [List.map_cons, List.map_nil, List.sum_cons, List.sum_nil,
          Function.comp_def]
        rw [hbnc]
        omega
      rw [hL, hR x, hR p]
      rw [List.map_congr_left hchl]
      rw [sum_map_add]
      by_cases hx : x = c
      · subst hx
        simp only [if_pos rfl]
        have hdx : (d == x) = false := by
          rw [beq_eq_false_iff_ne]
          exact hdc
        have hdp2 : (d == p) = true := by
          rw [beq_iff_eq]
          exact hdP
        rw [hdx, hdp2]
        simp only [List.count_singleton]
        have hxx : (x == x) = true := by rw [beq_iff_eq]
        rw [hxx]
        simp only [if_true, if_false]
        omega
      · rw [if_neg hx]
        have hcx : List.count x [c] = 0 := by
          rw [List.count_singleton]
          have hcf : (c == x) = false := by
            rw [beq_eq_false_iff_ne]
            exact fun h => hx h.symm
          rw [hcf]
          rfl
        rw [hcx]
        have hmapz : ((l.filter (fun e2 => e2.parentId == some d.id)).map
            (fun e => if x = c then List.count p (flattenNode (buildNode l f' e)) else 0)).sum
              = 0 := by
          rw [List.map_congr_left (fun e _ => if_neg hx)]
          simp
        rw [hmapz]
        omega
    · -- c is not a child of d
      have hdP : d ≠ p := fun h => hdp (by rw [h, hpid])
      have hfeq : (l ++ [c]).filter (fun e2 => e2.parentId == some d.id)
          = l.filter (fun e2 => e2.parentId == some d.id) := by
        rw [List.filter_append]
        have : List.filter (fun e2 => e2.parentId == some d.id) [c] = [] := by
          rw [List.filter_eq_nil_iff]
          intro a ha hbad
          rw [List.mem_singleton] at ha
          subst ha
          rw [hc, beq_iff_eq] at hbad
          exact hdp (Option.some.inj hbad).symm
        rw [this, List.append_nil]
      have hL : List.count x (flattenNode (buildNode (l ++ [c]) (f' + 1 + 1) d))
          = ((l.filter (fun e2 => e2.parentId == some d.id)).map
              (fun e => List.count x (flattenNode (buildNode (l ++ [c]) (f' + 1) e)))).sum
            + (if d == x then 1 else 0) := by
        rw [hbn, hfn, List.count_cons, count_flattenAux, List.map_map]
        have hperm : List.Perm (childrenOf (l ++ [c]) d.id)
            (l.filter (fun e2 => e2.parentId == some d.id)) := by
          unfold childrenOf
          rw [hfeq]
          exact sortByCreated_perm _
        rw [(hperm.map _).sum_eq]
        rfl
      rw [hL, hR x, hR p]
      rw [List.map_congr_left hchl]
      rw [sum_map_add]
      have hdp3 : (d == p) = false := by
        rw [beq_eq_false_iff_ne]
        exact hdP
      rw [hdp3]
      simp only [Bool.false_eq_true, if_false]
      by_cases hx : x = c
      · subst hx
        simp only [if_pos rfl, if_true]
        omega
      · rw [if_neg hx]
        have hmapz : ((l.filter (fun e2 => e2.parentId == some d.id)).map
            (fun e => if x = c then List.count p (flattenNode (buildNode l f' e)) else 0)).sum
              = 0 := by
          rw [List.map_congr_left (fun e _ => if_neg hx)]
          simp
        rw [hmapz]
        omega



theorem flatten_buildTree_perm :
    ∀ flat : List CommentRec, (flat.map (fun x => x.id)).Nodup →
      ParentsPrecedeP flat →
      List.Perm (flattenForest (buildTree flat)) flat := by
  intro flat
  induction flat using List.reverseRecOn with
  | nil =>
    intro _ _
    exact List.Perm.nil
  | append_singleton l c ih =>
    intro HN HP
    obtain ⟨hnl, hcl, hcid⟩ := hn_restrict l c HN
    have HPl := hp_restrict l c HN HP
    have ihp := ih hnl HPl
    have hlen : (l ++ [c]).length = l.length + 1 := by
      rw [List.length_append, List.length_singleton]
    rw [List.perm_iff_count]
    intro x
    rw [count_flatten_buildTree, hlen, List.count_append]
    by_cases hcroot : c.parentId = none
    · -- the new comment is a root
      have hrootsplit : (l ++ [c]).filter (fun d => d.parentId.isNone)
          = l.filter (fun d => d.parentId.isNone) ++ [c] := by
        rw [List.filter_append]
        congr 1
        simp [List.filter, hcroot]
      have hcongr : ∀ cid : CommentId,
          (l ++ [c]).filter (fun d => d.parentId == some cid)
            = l.filter (fun d => d.parentId == some cid) := by
        intro cid
        rw [List.filter_append]
        have hone : List.filter (fun d => d.parentId == some cid) [c] = [] := by
          rw [List.filter_eq_nil_iff]
          intro a ha hbad
          rw [List.mem_singleton] at ha
          subst ha
          rw [hcroot] at hbad
          simp at hbad
        rw [hone, List.append_nil]
      have hbuild : ∀ (fuel : Nat) (d : CommentRec),
          buildNode (l ++ [c]) fuel d = buildNode l fuel d :=
        buildNode_congr (l ++ [c]) l hcongr
      have hchlc : childrenOf l c.id = [] := by
        have hnc := no_children_of_last l c HN HP
        rw [List.filter_append] at hnc
        unfold childrenOf
        rw [(List.append_eq_nil.mp hnc).1]
        rfl
      have hgc : List.count x (flattenNode (buildNode l (l.length + 1) c))
          = List.count x [c] := by
        have hbc : buildNode l (l.length + 1) c = CommentNode.node c [] := by
          show CommentNode.node c ((childrenOf l c.id).map (buildNode l l.length))
            = CommentNode.node c []
          rw [hchlc]
          rfl
        rw [hbc]
        rfl
      rw [hrootsplit, List.map_append, List.sum_append]
      simp only [List.map_cons, List.map_nil, List.sum_cons, List.sum_nil]
      rw [List.map_congr_left (fun r hr => by rw [hbuild])]
      rw [hbuild, hgc]
      have hmain : ((l.filter (fun d => d.parentId.isNone)).map
          (fun r => List.count x (flattenNode (buildNode l (l.length + 1) r)))).sum
            = List.count x l := by
        rw [List.map_congr_left (fun r hr => by
          rw [buildNode_fuel_stable l hnl HPl l.length r
            (List.mem_filter.mp hr).1
            (by omega) (l.length + 1) l.length (by omega) (by omega)])]
        rw [← count_flatten_buildTree]
        exact ihp.count_eq x
      rw [hmain]
      omega
    · -- the new comment is a reply
      obtain ⟨pid, hc⟩ : ∃ pid, c.parentId = some pid := by
        cases hopt : c.parentId with
        | none => exact absurd hopt hcroot
        | some q => exact ⟨q, rfl⟩
      obtain ⟨p, hpmem, hpid, hplt⟩ := HP c (by simp) pid hc
      have hpl : p ∈ l := by
        rcases List.mem_append.mp hpmem with h | h
        · exact h
        · exfalso
          rw [List.mem_singleton] at h
          subst h
          rw [idx_last p l hcl] at hplt
          omega
      have hrootsplit : (l ++ [c]).filter (fun d => d.parentId.isNone)
          = l.filter (fun d => d.parentId.isNone) := by
        rw [List.filter_append]
        have hone : List.filter (fun d => d.parentId.isNone) [c] = [] := by
          rw [List.filter_eq_nil_iff]
          intro a ha hbad
          rw [List.mem_singleton] at ha
          subst ha
          rw [hc] at hbad
          simp at hbad
        rw [hone, List.append_nil]
      rw [hrootsplit]
      rw [List.map_congr_left (fun r hr =>
        attach_count l c pid p HN HP hc hpl hpid l.length r
          (List.mem_filter.mp hr).1 (by omega) l.length (by omega) x)]
      rw [sum_map_add]
      have hmain : ((l.filter (fun d => d.parentId.isNone)).map
          (fun r => List.count x (flattenNode (buildNode l l.length r)))).sum
            = List.count x l := by
        rw [← count_flatten_buildTree]
        exact ihp.count_eq x
      rw [hmain]
      by_cases hx : x = c
      · subst hx
        have hsump : ((l.filter (fun d => d.parentId.isNone)).map
            (fun r => List.count p (flattenNode (buildNode l l.length r)))).sum
              = List.count p l := by
          rw [← count_flatten_buildTree]
          exact ihp.count_eq p
        simp only [eq_self_iff_true, if_true]
        rw [hsump]
        have hcx : List.count x l = 0 := List.count_eq_zero.mpr hcl
        have hpcount : List.count p l = 1 :=
          List.count_eq_one_of_mem (List.Nodup.of_map _ hnl) hpl
        have hxs : List.count x [x] = 1 := by
          rw [List.count_singleton]
          simp
        rw [hcx, hpcount, hxs]
      · have hz : ((l.filter (fun d => d.parentId.isNone)).map
            (fun r => if x = c then
              List.count p (flattenNode (buildNode l l.length r)) else 0)).sum = 0 := by
          rw [List.map_congr_left (fun r hr => if_neg hx)]
          simp
        rw [hz]
        have hxc : List.count x [c] = 0 := by
          rw [List.count_singleton]
          have hne : (c == x) = false := by
            rw [beq_eq_false_iff_ne]
            exact fun h => hx h.symm
          rw [hne]
          rfl
        rw [hxc]



theorem map_nodeRec_buildNode (flat : List CommentRec) (fuel : Nat)
    (cs : List CommentRec) :
    (cs.map (buildNode flat fuel)).map nodeRec = cs := by
  rw [List.map_map]
  simp only [Function.comp_def]
  rw [List.map_congr_left (fun e _ => nodeRec_buildNode flat fuel e)]
  exact List.map_id cs

theorem repliesSorted_buildNode (flat : List CommentRec) :
    ∀ (fuel : Nat) (c : CommentRec), RepliesSorted (buildNode flat fuel c) := by
  intro fuel
  induction fuel with
  | zero =>
    intro c
    unfold buildNode RepliesSorted
    simp [RepliesSortedAll]
  | succ fuel ihf =>
    have haux : ∀ cs : List CommentRec,
        RepliesSortedAll (cs.map (buildNode flat fuel)) := by
      intro cs
      induction cs with
      | nil => trivial
      | cons a as ihl =>
        exact ⟨ihf a, ihl⟩
    intro c
    unfold buildNode RepliesSorted
    constructor
    · rw [map_nodeRec_buildNode]
      unfold childrenOf
      exact sortByCreated_sorted _
    · exact haux _

theorem repliesSortedAll_buildTree (flat : List CommentRec) :
    RepliesSortedAll (buildTree flat) := by
  unfold buildTree
  generalize (sortByCreated (flat.filter (fun c => c.parentId.isNone))) = cs
  induction cs with
  | nil => trivial
  | cons a as ihl =>
    exact ⟨repliesSorted_buildNode flat flat.length a, ihl⟩

theorem mem_childEntriesAll_map (flat : List CommentRec) (fuel : Nat)
    (cs : List CommentRec) (pr : CommentId × CommentRec)
    (h : pr ∈ childEntriesAll (cs.map (buildNode flat fuel))) :
    ∃ e ∈ cs, pr ∈ childEntries (buildNode flat fuel e) := by
  induction cs with
  | nil => cases h
  | cons a as ihl =>
    simp only [List.map_cons] at h
    unfold childEntriesAll at h
    rcases List.mem_append.mp h with h | h
    · exact ⟨a, List.mem_cons_self a as, h⟩
    · obtain ⟨e, he, hpe⟩ := ihl h
      exact ⟨e, List.mem_cons_of_mem a he, hpe⟩

theorem childEntries_owned (flat : List CommentRec) :
    ∀ (fuel : Nat) (c : CommentRec) (pr : CommentId × CommentRec),
      pr ∈ childEntries (buildNode flat fuel c) → pr.2.parentId = some pr.1 := by
  intro fuel
  induction fuel with
  | zero =>
    intro c pr hpr
    unfold buildNode childEntries at hpr
    simp [childEntriesAll] at hpr
  | succ fuel ihf =>
    intro c pr hpr
    unfold buildNode childEntries at hpr
    rcases List.mem_append.mp hpr with h | h
    · rw [List.map_map, List.mem_map] at h
      obtain ⟨e, he, heq⟩ := h
      have hep := (mem_childrenOf he).2
      rw [← heq]
      simp only [Function.comp_apply, nodeRec_buildNode]
      exact hep
    · obtain ⟨e, _, hpe⟩ := mem_childEntriesAll_map flat fuel _ pr h
      exact ihf e pr hpe

theorem childEntriesAll_buildTree_owned (flat : List CommentRec)
    (pr : CommentId × CommentRec)
    (h : pr ∈ childEntriesAll (buildTree flat)) : pr.2.parentId = some pr.1 := by
  unfold buildTree at h
  obtain ⟨e, _, hpe⟩ := mem_childEntriesAll_map flat flat.length _ pr h
  exact childEntries_owned flat flat.length e pr hpe

theorem count_childEntriesAll (x : CommentRec) (ts : List CommentNode) :
    List.count x ((childEntriesAll ts).map (fun e => e.2))
      = (ts.map (fun t => List.count x ((childEntries t).map (fun e => e.2)))).sum := by
  induction ts with
  | nil => rfl
  | cons t ts ih =>
    unfold childEntriesAll
    rw [List.map_append, List.count_append, ih]
    rfl

theorem count_flatten_entries (flat : List CommentRec) :
    ∀ (fuel : Nat) (c : CommentRec) (x : CommentRec),
      List.count x (flattenNode (buildNode flat fuel c))
        = (if c = x then 1 else 0)
          + List.count x ((childEntries (buildNode flat fuel c)).map (fun e => e.2)) := by
  intro fuel
  induction fuel with
  | zero =>
    intro c x
    unfold buildNode childEntries
    simp only [List.map_nil, List.nil_append, childEntriesAll]
    rw [show flattenNode (CommentNode.node c []) = [c] from rfl]
    rw [List.count_singleton, List.count_nil]
    by_cases h : c = x
    · simp [h]
    · simp [h]
  | succ fuel ihf =>
    intro c x
    have hnode : buildNode flat (fuel + 1) c
        = CommentNode.node c ((childrenOf flat c.id).map (buildNode flat fuel)) := rfl
    rw [hnode]
    have hflat : flattenNode (CommentNode.node c
          ((childrenOf flat c.id).map (buildNode flat fuel)))
        = c :: flattenForestAux ((childrenOf flat c.id).map (buildNode flat fuel)) := rfl
    rw [hflat, List.count_cons, count_flattenAux, List.map_map]
    have hce : childEntries (CommentNode.node c
          ((childrenOf flat c.id).map (buildNode flat fuel)))
        = ((childrenOf flat c.id).map (buildNode flat fuel)).map
            (fun t => (c.id, nodeRec t))
          ++ childEntriesAll ((childrenOf flat c.id).map (buildNode flat fuel)) := rfl
    rw [hce, List.map_append, List.count_append]
    have hfirst : ((((childrenOf flat c.id).map (buildNode flat fuel)).map
        (fun t => (c.id, nodeRec t))).map (fun e => e.2)) = childrenOf flat c.id := by
      rw [List.map_map, List.map_map]
      simp only [Function.comp_def, nodeRec_buildNode]
      exact List.map_id _
    rw [hfirst]
    rw [count_childEntriesAll, List.map_map]
    have hstep : ((childrenOf flat c.id).map
        ((fun t => List.count x (flattenNode t)) ∘ buildNode flat fuel)).sum
          = ((childrenOf flat c.id).map (fun e => (if e = x then 1 else 0)
            + List.count x ((childEntries (buildNode flat fuel e)).map
              (fun e2 => e2.2)))).sum := by
      congr 1
      simp only [Function.comp_def]
      apply List.map_congr_left
      intro e _
      exact ihf e x
    rw [hstep, sum_map_add, ← count_as_sum]
    have hsame : ((childrenOf flat c.id).map
        ((fun t => List.count x ((childEntries t).map (fun e => e.2)))
          ∘ buildNode flat fuel)).sum
          = ((childrenOf flat c.id).map
            (fun e => List.count x ((childEntries (buildNode flat fuel e)).map
              (fun e2 => e2.2)))).sum := by
      congr 1
    rw [hsame]
    by_cases h : c = x
    · have hb : (if (c == x) = true then 1 else 0) = 1 := by
        rw [show (c == x) = true from by rw [beq_iff_eq]; exact h]
        rfl
      rw [hb, if_pos h]
      omega
    · have hb : (if (c == x) = true then 1 else 0) = 0 := by
        rw [show (c == x) = false from by rw [beq_eq_false_iff_ne]; exact h]
        rfl
      rw [hb, if_neg h]
      omega



theorem count_entries_buildTree (flat : List CommentRec) (x : CommentRec) :
    List.count x (flattenForest (buildTree flat))
      = List.count x (flat.filter (fun c => c.parentId.isNone))
        + List.count x ((childEntriesAll (buildTree flat)).map (fun e => e.2)) := by
  rw [count_flatten_buildTree]
  rw [List.map_congr_left (fun r _ => count_flatten_entries flat flat.length r x)]
  rw [sum_map_add, ← count_as_sum]
  have hsnd : List.count x ((childEntriesAll (buildTree flat)).map (fun e => e.2))
      = ((flat.filter (fun c => c.parentId.isNone)).map
          (fun r => List.count x ((childEntries (buildNode flat flat.length r)).map
            (fun e2 => e2.2)))).sum := by
    unfold buildTree
    rw [count_childEntriesAll, List.map_map]
    rw [((sortByCreated_perm _).map _).sum_eq]
    congr 1
  rw [hsnd]

/-- C5: BuildTree applied to the complete flat set of N comments of one post
(ids distinct, every declared parent listed earlier, as creation order
guarantees) returns a forest whose records are a permutation of the input —
hence exactly N nodes — in which every replies list is ordered by created_at
ascending and every comment with a non-null parent_id appears in exactly one
parent's replies list, namely under the node carrying that parent id. -/
theorem c5_tree_assembly (flat : List CommentRec)
    (HN : (flat.map (fun c => c.id)).Nodup)
    (HP : parentsPrecede flat = true) :
    List.Perm (flattenForest (buildTree flat)) flat ∧
    (flattenForest (buildTree flat)).length = flat.length ∧
    RepliesSortedAll (buildTree flat) ∧
    (∀ x ∈ flat, ∀ pid, x.parentId = some pid →
      List.count x ((childEntriesAll (buildTree flat)).map (fun e => e.2)) = 1 ∧
      (∀ pr ∈ childEntriesAll (buildTree flat), pr.2 = x → pr.1 = pid)) := by
  have HPp := parentsPrecedeP_of flat HP
  have hperm := flatten_buildTree_perm flat HN HPp
  refine ⟨hperm, hperm.length_eq, repliesSortedAll_buildTree flat, ?_⟩
  intro x hx pid hpid
  constructor
  · have h1 := count_entries_buildTree flat x
    have hroot0 : List.count x (flat.filter (fun c => c.parentId.isNone)) = 0 := by
      rw [List.count_eq_zero]
      intro hmem
      have h2 := (List.mem_filter.mp hmem).2
      rw [hpid] at h2
      simp at h2
    have hflat1 : List.count x (flattenForest (buildTree flat)) = 1 := by
      rw [hperm.count_eq]
      exact List.count_eq_one_of_mem (List.Nodup.of_map _ HN) hx
    omega
  · intro pr hpr hsnd
    have hown := childEntriesAll_buildTree_owned flat pr hpr
    rw [hsnd, hpid] at hown
    exact (Option.some.inj hown).symm

theorem c5_tree_assembly_witness :
    List.Perm (flattenForest (buildTree c5flat)) c5flat ∧
    (flattenForest (buildTree c5flat)).length = c5flat.length ∧
    RepliesSortedAll (buildTree c5flat) ∧
    (∀ x ∈ c5flat, ∀ pid, x.parentId = some pid →
      List.count x ((childEntriesAll (buildTree c5flat)).map (fun e => e.2)) = 1 ∧
      (∀ pr ∈ childEntriesAll (buildTree c5flat), pr.2 = x → pr.1 = pid)) :=
  c5_tree_assembly c5flat (by decide) (by decide)

theorem mem_flattenAux_map (flat : List CommentRec) (fuel : Nat)
    (cs : List CommentRec) (x : CommentRec)
    (h : x ∈ flattenForestAux (cs.map (buildNode flat fuel))) :
    ∃ r ∈ cs, x ∈ flattenNode (buildNode flat fuel r) := by
  induction cs with
  | nil => cases h
  | cons a as ihl =>
    simp only [List.map_cons] at h
    unfold flattenForestAux at h
    rcases List.mem_append.mp h with h | h
    · exact ⟨a, List.mem_cons_self a as, h⟩
    · obtain ⟨r, hr, hxr⟩ := ihl h
      exact ⟨r, List.mem_cons_of_mem a hr, hxr⟩

theorem mem_flatten_buildNode (flat : List CommentRec) :
    ∀ (fuel : Nat) (c : CommentRec) (x : CommentRec),
      x ∈ flattenNode (buildNode flat fuel c) →
      x = c ∨ x.parentId = some c.id ∨ ∃ d ∈ flat, x.parentId = some d.id := by
  intro fuel
  induction fuel with
  | zero =>
    intro c x hx
    unfold buildNode at hx
    rw [show flattenNode (CommentNode.node c []) = [c] from rfl,
      List.mem_singleton] at hx
    exact Or.inl hx
  | succ fuel ihf =>
    intro c x hx
    unfold buildNode at hx
    rw [show ∀ rs, flattenNode (CommentNode.node c rs) = c :: flattenForestAux rs
      from fun _ => rfl] at hx
    rcases List.mem_cons.mp hx with h | h
    · exact Or.inl h
    · obtain ⟨e, he, hxe⟩ := mem_flattenAux_map flat fuel _ x h
      obtain ⟨hef, hep⟩ := mem_childrenOf he
      rcases ihf e x hxe with h2 | h2 | h2
      · subst h2
        exact Or.inr (Or.inl hep)
      · exact Or.inr (Or.inr ⟨e, hef, h2⟩)
      · exact Or.inr (Or.inr h2)

/-- C6 amended: a comment whose declared parent_id does not reference any
comment of the input set is dropped from the returned forest entirely (it is
neither a top-level node nor inside any replies list); BuildTree stays total
and raises no error. -/
theorem c6_orphan_dropped (flat : List CommentRec) (x : CommentRec)
    (hx : x ∈ flat) (pid : CommentId) (hpid : x.parentId = some pid)
    (horphan : ∀ d ∈ flat, d.id ≠ pid) :
    x ∉ flattenForest (buildTree flat) := by
  intro hmem
  unfold flattenForest buildTree at hmem
  obtain ⟨r, hr, hxr⟩ := mem_flattenAux_map flat flat.length _ x hmem
  rw [mem_sortByCreated, List.mem_filter] at hr
  rcases mem_flatten_buildNode flat flat.length r x hxr with h | h | h
  · subst h
    rw [hpid] at hr
    simp at hr
  · rw [hpid] at h
    exact horphan r hr.1 (Option.some.inj h).symm
  · obtain ⟨d, hd, hpd⟩ := h
    rw [hpid] at hpd
    exact horphan d hd (Option.some.inj hpd).symm

/-- Counterexample to C6 as stated: the single comment of c6flat declares
parent 99, which is not in the set; the returned forest is empty, so the
orphan does not appear in the top-level output (nor anywhere else). -/
theorem c6_orphan_not_root :
    buildTree c6flat = [] ∧ flattenForest (buildTree c6flat) = [] ∧
    c6flat.length = 1 :=
  ⟨rfl, rfl, rfl⟩

/-- Witness for the amended C6: the orphan reply of c6wflat (parent 42 not in
the set) appears nowhere in the assembled forest. -/
theorem c6_orphan_dropped_witness :
    (⟨6, 100, some 42, 8, "orphan reply", 1⟩ : CommentRec)
      ∉ flattenForest (buildTree c6wflat) :=
  c6_orphan_dropped c6wflat ⟨6, 100, some 42, 8, "orphan reply", 1⟩
    (by decide) 42 rfl (by decide)

/-! Username normalization in the serializer create methods. -/

/-- C10: user identity resolution normalizes names inside the create paths:
for like, post and comment creation, two user_name / author_name inputs that
are equal after stripping surrounding whitespace and lowercasing resolve to
the same user account — the three operations return identical results, so
e.g. "Alex" and " alex " produce content and likes owned by one user. -/
theorem c10_name_normalization (n1 n2 : String)
    (h : pyStripLower n1 = pyStripLower n2) :
    (∀ (db : DB) (content : String) (now : Time),
      postCreate db n1 content now = postCreate db n2 content now) ∧
    (∀ (db : DB) (postId : PostId) (parentId : Option CommentId)
        (content : String) (now : Time),
      commentCreate db postId parentId n1 content now
        = commentCreate db postId parentId n2 content now) ∧
    (∀ (db : DB) (postId : Option PostId) (commentId : Option CommentId)
        (now : Time) (b : Bool),
      likeCreate db ⟨n1, postId, commentId⟩ now b
        = likeCreate db ⟨n2, postId, commentId⟩ now b) := by
  refine ⟨?_, ?_, ?_⟩
  · intro db content now
    unfold postCreate
    rw [h]
  · intro db postId parentId content now
    unfold commentCreate
    rw [h]
  · intro db postId commentId now b
    unfold likeCreate
    rw [show likeValidate ⟨n1, postId, commentId⟩
        = likeValidate ⟨n2, postId, commentId⟩ from rfl]
    cases likeValidate ⟨n2, postId, commentId⟩ with
    | some e => rfl
    | none =>
      simp only
      rw [h]

/-- Witness for C10: "Alex" and " alex " normalize alike, as do "BOB" and
" bob"; creating posts or likes under either spelling gives equal results. -/
theorem c10_name_normalization_witness :
    (∀ (db : DB) (content : String) (now : Time),
      postCreate db "Alex" content now = postCreate db " alex " content now) ∧
    likeCreate c1db ⟨"BOB", some 10, none⟩ 1 false
      = likeCreate c1db ⟨" bob", some 10, none⟩ 1 false :=
  ⟨(c10_name_normalization "Alex" " alex " (by decide)).1,
   (c10_name_normalization "BOB" " bob" (by decide)).2.2 c1db (some 10) none 1 false⟩

end Feed
